import Mathlib

/-!
# Verification of the tagging-data windowing library

A shallow embedding of `official/nlp/data/tagging_data_lib.py` (token-tagging
feature generation: subword expansion, sliding-window span generation,
max-context selection, feature assembly, batch driving), with theorems
checking the natural-language specification against the code.

Modelling conventions:
* Python ints are `Int` (label ids, which may be negative) or `Nat`
  (positions, lengths).
* The floating-point score `min(left, right) + 0.01 * length` is modelled by
  the integer `100 * min(left, right) + length`, which has exactly the same
  ordering and ties as the real-valued score.
* The external tokenizer is an opaque structure of pure functions.
* The fallible path (`raise ValueError`) is `Except String`.
* The `while` loop generating doc spans is modelled with explicit fuel since
  it does not terminate for all parameter values; termination under the
  documented parameter range is proved, not assumed.
-/

namespace TaggingDataLib

/-- `_PADDING_LABEL_ID = -1`: negative label id for the padding label. -/
def _PADDING_LABEL_ID : Int := -1

/-- `_UNK_TOKEN = "[UNK]"`: substitute for a word with too many subwords. -/
def _UNK_TOKEN : String := "[UNK]"

/-- `InputExample`: a single training/test example for token classification.
`best_context` holds the per-position best-context flags (Python stores
ints 0/1 or booleans; both serialize identically, modelled as `Bool`). -/
structure InputExample where
  sentence_id : Int
  words : List String
  label_ids : List Int
  best_context : List Bool
deriving DecidableEq, Repr

/-- `add_word_and_label_id` with a best-context flag (as used by
`_tokenize_example`, which always passes one). -/
def InputExample.add_word_and_label_id (e : InputExample) (word : String)
    (label_id : Int) (bc : Bool) : InputExample :=
  { e with words := e.words ++ [word],
           label_ids := e.label_ids ++ [label_id],
           best_context := e.best_context ++ [bc] }

/-- The external tokenizer capability: `tokenize(word)` and per-token id
lookup (`convert_tokens_to_ids` maps `tokenToId` over a token list). -/
structure Tokenizer where
  tokenize : String → List String
  tokenToId : String → Nat

/-- `DocSpan` namedtuple: `start`, `length`, covered labeled global
positions, and per-local-position best-context flags. -/
structure DocSpan where
  start : Nat
  length : Nat
  labels : List Nat
  best_context : List Bool
deriving DecidableEq, Repr

/-! ## `_check_is_max_context` (source lines 276-312) -/

/-- The covering test of `_check_is_max_context`: skip unless
`doc_span.start <= position <= doc_span.start + doc_span.length - 1`
(in exact integer arithmetic, `start ≤ p < start + length`). -/
def coversB (sp : DocSpan) (p : Nat) : Bool :=
  decide (sp.start ≤ p) && decide (p < sp.start + sp.length)

/-- `min(num_left_context, num_right_context)` for a covering span. -/
def minCtx (sp : DocSpan) (p : Nat) : Nat :=
  min (p - sp.start) (sp.start + sp.length - 1 - p)

/-- The span score `min(left, right) + 0.01 * length`, scaled by 100 into
exact integer arithmetic (same order and same ties). -/
def score100 (sp : DocSpan) (p : Nat) : Nat :=
  100 * minCtx sp p + sp.length

/-- One iteration of the best-span fold: update `(best_span_index,
best_score)` when the span covers `position` and either no best exists yet
or the score is strictly greater (`score > best_score`). -/
def bestStep (p : Nat) (acc : Option (Nat × Nat)) (i : Nat) (sp : DocSpan) :
    Option (Nat × Nat) :=
  if coversB sp p then
    match acc with
    | none => some (i, score100 sp p)
    | some (b, s) => if s < score100 sp p then some (i, score100 sp p) else some (b, s)
  else acc

/-- The `for (span_index, doc_span) in enumerate(doc_spans)` loop of
`_check_is_max_context`, threading the running best. -/
def bestAux (p : Nat) : List DocSpan → Nat → Option (Nat × Nat) → Option (Nat × Nat)
  | [], _, acc => acc
  | sp :: rest, i, acc => bestAux p rest (i + 1) (bestStep p acc i sp)

/-- `_check_is_max_context(doc_spans, cur_span_index, position)`: true iff
`cur_span_index` equals the computed `best_span_index` (false when no span
covers the position, i.e. `best_span_index is None`). -/
def _check_is_max_context (doc_spans : List DocSpan) (cur_span_index : Nat)
    (position : Nat) : Bool :=
  match bestAux position doc_spans 0 none with
  | some (b, _) => cur_span_index == b
  | none => false

/-! ## Span generation (`convert_examples_to_features`, source lines 355-370)

The `while start_offset < len(all_doc_tokens)` loop.  It is modelled with
explicit fuel because for `max_tokens_for_doc = 0` (i.e. `max_seq_length = 2`)
the Python loop never advances `start_offset` and runs forever.  A call that
runs out of fuel returns `none`; the loop enumerates `(start, length)` pairs
(the labeled-position retention filter is applied separately below, as in the
source where spans without a labeled position are skipped but the loop goes
on). -/

def spanLoopFuel (totalLen cap stride : Nat) : Nat → Nat → Option (List (Nat × Nat))
  | fuel, start_offset =>
    if start_offset < totalLen then
      match fuel with
      | 0 => none
      | fuel + 1 =>
        let length := totalLen - start_offset
        let length := if length > cap then cap else length
        if start_offset + length = totalLen then
          some [(start_offset, length)]
        else
          (spanLoopFuel totalLen cap stride fuel (start_offset + min length stride)).map
            (fun rest => (start_offset, length) :: rest)
    else
      some []

/-- The span-generation loop terminates (for some amount of fuel) from
`start_offset = 0`. -/
def spanLoopTerminates (totalLen cap stride : Nat) : Prop :=
  ∃ fuel, (spanLoopFuel totalLen cap stride fuel 0).isSome

/-- Retention filter and `DocSpan` construction (source lines 362-367): a
span is kept iff some labeled global position lies in
`[start, start + length)`; its `labels` field is the covered subset of
`example_label_ix` and `best_context` starts as `[False] * length`. -/
def docSpansOf (example_label_ix : List Nat) (pairs : List (Nat × Nat)) :
    List DocSpan :=
  pairs.filterMap (fun q =>
    if example_label_ix.any (fun ix => decide (q.1 ≤ ix) && decide (ix < q.1 + q.2)) then
      some ⟨q.1, q.2, example_label_ix.filter
              (fun ix => decide (q.1 ≤ ix) && decide (ix < q.1 + q.2)),
            List.replicate q.2 false⟩
    else none)

/-! ## Document flattening (`convert_examples_to_features`, lines 329-343)

Builds `all_doc_tokens`, `all_doc_labels` and `example_label_ix`. -/

/-- The `for j, sub_token in enumerate(sub_tokens)` loop: the first subword
carries the word's label, the rest `_PADDING_LABEL_ID`; indices of non-pad
sublabels (i.e. `len(all_doc_labels)` at append time) go to
`example_label_ix`. -/
def subLabelLoop (label : Int) : List String → Nat → List Int → List Nat →
    List Int × List Nat
  | [], _, labs, ix => (labs, ix)
  | _ :: rest, j, labs, ix =>
    let sublabel := if j = 0 then label else _PADDING_LABEL_ID
    let ix := if sublabel ≠ _PADDING_LABEL_ID then ix ++ [labs.length] else ix
    subLabelLoop label rest (j + 1) (labs ++ [sublabel]) ix

/-- The `for i, (token, label) in enumerate(zip(...))` loop: tokenize each
word (empty tokenizations of non-empty words become `[_UNK_TOKEN]`; note this
path has no length cap and no text preprocessing), accumulating the flattened
tokens, labels, and labeled positions. -/
def expandDocAux (tok : Tokenizer) : List (String × Int) → List String →
    List Int → List Nat → List String × List Int × List Nat
  | [], toks, labs, ix => (toks, labs, ix)
  | (word, label) :: rest, toks, labs, ix =>
    let sub_tokens := tok.tokenize word
    let sub_tokens := if sub_tokens.isEmpty && word ≠ "" then [_UNK_TOKEN] else sub_tokens
    let (labs, ix) := subLabelLoop label sub_tokens 0 labs ix
    expandDocAux tok rest (toks ++ sub_tokens) labs ix

/-- Flattening of an example's words and labels into
`(all_doc_tokens, all_doc_labels, example_label_ix)`. -/
def expandDoc (tok : Tokenizer) (words : List String) (label_ids : List Int) :
    List String × List Int × List Nat :=
  expandDocAux tok (words.zip label_ids) [] [] []

/-! ## Max-context marking (`convert_examples_to_features`, lines 401-416) -/

/-- The marking of one span: position `v - start` becomes true for each
labeled `v` in range with `_check_is_max_context` true (the span's
`best_context` starts all-false, so the flag at local position `k` ends up
true iff `v = start + k` qualifies). -/
def markSpan (doc_spans : List DocSpan) (i : Nat) (sp : DocSpan)
    (example_label_ix : List Nat) : DocSpan :=
  { sp with best_context := (List.range sp.length).map (fun k =>
      example_label_ix.any (fun v =>
        v == sp.start + k && _check_is_max_context doc_spans i v)) }

/-- `has_is_max_context` for one span: some labeled position in range has
`_check_is_max_context` true. -/
def hasMaxContext (doc_spans : List DocSpan) (i : Nat) (sp : DocSpan)
    (example_label_ix : List Nat) : Bool :=
  example_label_ix.any (fun v =>
    decide (sp.start ≤ v) && decide (v < sp.start + sp.length) &&
      _check_is_max_context doc_spans i v)

/-- The `for (doc_span_index, doc_span) in enumerate(doc_spans)` loop: mark
each span and keep it in `optimal_span_list` iff it owns a max-context
position. -/
def optimalAux (doc_spans : List DocSpan) (example_label_ix : List Nat) :
    List DocSpan → Nat → List DocSpan
  | [], _ => []
  | sp :: rest, i =>
    (if hasMaxContext doc_spans i sp example_label_ix then
       [markSpan doc_spans i sp example_label_ix]
     else []) ++ optimalAux doc_spans example_label_ix rest (i + 1)

/-- `optimal_span_list` built from the retained doc spans. -/
def optimalSpans (doc_spans : List DocSpan) (example_label_ix : List Nat) :
    List DocSpan :=
  optimalAux doc_spans example_label_ix doc_spans 0

/-- `convert_examples_to_features` (windowing path; the dead
`is_training` merge strategy is commented out in the source and not
modelled).  Returns `none` if the span loop would not terminate; fuel
`totalLen` suffices whenever the loop terminates at all, because
`start_offset` strictly increases and stays below `totalLen`. -/
def convert_examples_to_features (ex : InputExample) (tok : Tokenizer)
    (max_seq_length : Nat) (doc_stride : Nat) : Option (List InputExample) :=
  let flat := expandDoc tok ex.words ex.label_ids
  let all_doc_tokens := flat.1
  let all_doc_labels := flat.2.1
  let example_label_ix := flat.2.2
  let max_tokens_for_doc := max_seq_length - 2
  match spanLoopFuel all_doc_tokens.length max_tokens_for_doc doc_stride
      all_doc_tokens.length 0 with
  | none => none
  | some pairs =>
    let doc_spans := docSpansOf example_label_ix pairs
    some ((optimalSpans doc_spans example_label_ix).map (fun span =>
      ⟨ex.sentence_id,
       (all_doc_tokens.drop span.start).take span.length,
       (all_doc_labels.drop span.start).take span.length,
       span.best_context⟩))

/-! ## `_tokenize_example` (source lines 203-235) -/

/-- The per-word subword computation of `_tokenize_example`: tokenize the
(already preprocessed) word; if the result is empty or longer than the
effective budget `cap = max_length - 2`, and the word is non-empty (Python
truthiness of `word`), substitute `[_UNK_TOKEN]`. -/
def wordSubwords (tok : Tokenizer) (cap : Nat) (word : String) : List String :=
  let subwords := tok.tokenize word
  if (subwords.isEmpty || subwords.length > cap) && word ≠ "" then
    [_UNK_TOKEN]
  else subwords

/-- Emission guard used at a window close-out (source lines 221, 232): the
accumulated example is appended only if its labels are not all padding and
non-empty. -/
def emitGuard (e : InputExample) : Bool :=
  e.label_ids.count _PADDING_LABEL_ID != e.label_ids.length && !e.label_ids.isEmpty

/-- Application of the optional `text_preprocessing` to a word. -/
def applyPre (pre : Option (String → String)) (word : String) : String :=
  match pre with
  | some f => f word
  | none => word

/-- The `for i, word in enumerate(example.words)` loop of
`_tokenize_example`.  Per iteration: the negative-label guard (which raises
on ANY negative id, the reserved `-1` included), optional preprocessing,
subword computation, greedy close-out when the budget would overflow, and the
per-subword append (first subword keeps `label_ids[i]`, the rest get the
padding label; best-context flag true iff the sublabel is non-padding).
Indexing `example.label_ids[i]` out of range is Python's `IndexError`. -/
def tokenizeLoop (tok : Tokenizer) (pre : Option (String → String)) (cap : Nat)
    (use_neg_labels : Bool) (label_ids : List Int) (sid : Int) :
    List String → Nat → List InputExample → InputExample →
    Except String (List InputExample)
  | [], _, acc, cur =>
    if !cur.words.isEmpty && emitGuard cur then .ok (acc ++ [cur]) else .ok acc
  | word :: rest, i, acc, cur =>
    if !use_neg_labels && label_ids.any (fun x => x < 0) then
      .error "Unexpected negative label_id"
    else
      let word := applyPre pre word
      let subwords := wordSubwords tok cap word
      let ac :=
        if subwords.length + cur.words.length > cap then
          ((if emitGuard cur then acc ++ [cur] else acc),
           (⟨sid, [], [], []⟩ : InputExample))
        else (acc, cur)
      match subwords with
      | [] => tokenizeLoop tok pre cap use_neg_labels label_ids sid rest (i + 1) ac.1 ac.2
      | s0 :: srest =>
        match label_ids[i]? with
        | none => .error "IndexError: list index out of range"
        | some label =>
          let cur := ac.2.add_word_and_label_id s0 label (label ≠ _PADDING_LABEL_ID)
          let cur := srest.foldl
            (fun c s => c.add_word_and_label_id s _PADDING_LABEL_ID false) cur
          tokenizeLoop tok pre cap use_neg_labels label_ids sid rest (i + 1) ac.1 cur

/-- `_tokenize_example`: tokenizes words and breaks a long example into short
ones (truncation path; its unused `doc_stride` parameter is dropped). -/
def _tokenize_example (ex : InputExample) (max_length : Nat) (tok : Tokenizer)
    (text_preprocessing : Option (String → String)) (use_neg_labels : Bool) :
    Except String (List InputExample) :=
  tokenizeLoop tok text_preprocessing (max_length - 2) use_neg_labels
    ex.label_ids ex.sentence_id ex.words 0 [] ⟨ex.sentence_id, [], [], []⟩

/-! ## `_convert_single_example` (source lines 238-274) -/

/-- The fixed-length feature record (the `tf.train.Example` payload). -/
structure FeatureRecord where
  input_ids : List Nat
  input_mask : List Nat
  segment_ids : List Nat
  label_ids : List Int
  sentence_id : Int
  best_context : List Bool
deriving DecidableEq, Repr

/-- `_convert_single_example`: wrap with `[CLS]`/`[SEP]` (padding label,
false flag), convert tokens to ids, then pad every array with
`(0, 0, 0, _PADDING_LABEL_ID, 0)` while `len(input_ids) < max_seq_length`.
Each array receives exactly `max_seq_length - len(input_ids)` pad entries
(zero when the input is already too long: the source has no length check and
raises nothing). -/
def _convert_single_example (ex : InputExample) (max_seq_length : Nat)
    (tok : Tokenizer) : FeatureRecord :=
  let tokens := "[CLS]" :: ex.words ++ ["[SEP]"]
  let input_ids := tokens.map tok.tokenToId
  let label_ids := _PADDING_LABEL_ID :: ex.label_ids ++ [_PADDING_LABEL_ID]
  let context := false :: ex.best_context ++ [false]
  let segment_ids := List.replicate input_ids.length 0
  let input_mask := List.replicate input_ids.length 1
  let padN := max_seq_length - input_ids.length
  { input_ids := input_ids ++ List.replicate padN 0,
    input_mask := input_mask ++ List.replicate padN 0,
    segment_ids := segment_ids ++ List.replicate padN 0,
    label_ids := label_ids ++ List.replicate padN _PADDING_LABEL_ID,
    sentence_id := ex.sentence_id,
    best_context := context ++ List.replicate padN false }

/-! ## `write_example_to_file` (source lines 485-596) -/

/-- `count_labels`: number of real (non-padding) labels. -/
def count_labels (e : InputExample) : Nat :=
  e.label_ids.length - e.label_ids.count _PADDING_LABEL_ID

/-- Python truthiness of the `doc_stride` argument (`if doc_stride:`). -/
def strideTruthy : Option Nat → Bool
  | none => false
  | some n => n != 0

/-- `perform_convert_to_features`: windowing path when `doc_stride` is
truthy, otherwise the truncation path with `use_neg_labels` left at its
default `True`.  A windowing run that would loop forever is an error (the
Python call never returns). -/
def performConvert (ex : InputExample) (tok : Tokenizer) (max_seq_length : Nat)
    (pre : Option (String → String)) (doc_stride : Option Nat) :
    Except String (List InputExample) :=
  if strideTruthy doc_stride then
    match convert_examples_to_features ex tok max_seq_length (doc_stride.getD 0) with
    | some outs => .ok outs
    | none => .error "span loop does not terminate"
  else
    _tokenize_example ex max_seq_length tok pre true

/-- The `for example in examples_s` driver loop: convert each example and
concatenate the per-example outputs in order. -/
def convertSeq (tok : Tokenizer) (max_seq_length : Nat)
    (pre : Option (String → String)) (doc_stride : Option Nat) :
    List InputExample → Except String (List InputExample)
  | [] => .ok []
  | e :: rest => do
    let a ← performConvert e tok max_seq_length pre doc_stride
    let b ← convertSeq tok max_seq_length pre doc_stride rest
    .ok (a ++ b)

/-- The label-filtered input list (`examples_n`, source lines 543-546). -/
def filteredExamples (examples : List InputExample) : List InputExample :=
  examples.filter (fun e => count_labels e ≠ 0)

/-- `examples_s`: the filtered examples stably sorted ascending by
`count_labels`.  Python `sorted` with a key is a stable ascending sort;
`List.insertionSort` with `count_labels a ≤ count_labels b` is exactly that
(an element is inserted before every equal-key element that occurred later),
and being structurally recursive it also computes definitionally. -/
def sortedExamples (examples : List InputExample) : List InputExample :=
  (filteredExamples examples).insertionSort
    (fun a b => count_labels a ≤ count_labels b)

/-- All `InputExample`s handed to the feature assembler by
`write_example_to_file` (filter, stable sort, then per-example conversion). -/
def assembledExamples (examples : List InputExample) (tok : Tokenizer)
    (max_seq_length : Nat) (pre : Option (String → String))
    (doc_stride : Option Nat) : Except String (List InputExample) :=
  convertSeq tok max_seq_length pre doc_stride (sortedExamples examples)

/-- `write_example_to_file` stripped of file I/O: the list of serialized
feature records and the returned `num_tokenized_examples` count (the dead
`is_training` flag is dropped). -/
def write_example_to_file (examples : List InputExample) (tok : Tokenizer)
    (max_seq_length : Nat) (pre : Option (String → String))
    (doc_stride : Option Nat) : Except String (List FeatureRecord × Nat) :=
  (assembledExamples examples tok max_seq_length pre doc_stride).map
    (fun l =>
      let recs := l.map (fun e => _convert_single_example e max_seq_length tok)
      (recs, recs.length))

/-! ## `generate_tf_record_from_data_file` (source lines 627-668) -/

/-- `token_classification_meta_data` as built by the driver (which always
supplies every field). -/
structure TaggingMetaData where
  train_data_size : Nat
  max_seq_length : Nat
  num_labels : Nat
  eval_data_size : Nat
  test_data_size : Nat
  label_list : List String
  processor_type : String
deriving DecidableEq, Repr

/-- The records written to the three output files plus the returned
metadata. -/
structure GenerateResult where
  eval_records : List FeatureRecord
  test_records : List FeatureRecord
  train_records : List FeatureRecord
  meta : TaggingMetaData
deriving DecidableEq, Repr

/-- `generate_tf_record_from_data_file`, with the processor and file system
abstracted into the three example lists, the label list and the processor
name.  Mirrors the source's order of operations: `common_kwargs` captures
the caller's `doc_stride` (source lines 633-637) BEFORE the local variable is
rebound to `None` (line 641, a dead assignment), and the eval, test, and
train sets are written in that order with the captured kwargs. -/
def generate_tf_record_from_data_file (train_examples eval_examples
    test_examples : List InputExample) (labels : List String)
    (processor_type : String) (tok : Tokenizer) (max_seq_length : Nat)
    (text_preprocessing : Option (String → String)) (doc_stride : Option Nat) :
    Except String GenerateResult :=
  let kwargs_doc_stride := doc_stride
  let _doc_stride : Option Nat := none
  do
    let ev ← write_example_to_file eval_examples tok max_seq_length
      text_preprocessing kwargs_doc_stride
    let te ← write_example_to_file test_examples tok max_seq_length
      text_preprocessing kwargs_doc_stride
    let tr ← write_example_to_file train_examples tok max_seq_length
      text_preprocessing kwargs_doc_stride
    .ok ⟨ev.1, te.1, tr.1,
         ⟨tr.2, max_seq_length, labels.length, ev.2, te.2, labels,
          processor_type⟩⟩

/-- Equality up to record multiset for fallible record streams: two runs are
related when both fail, or both succeed with permuted (equal-multiset)
outputs. -/
def exceptPerm {α : Type} : Except String (List α) → Except String (List α) → Prop
  | .ok a, .ok b => a.Perm b
  | .error _, .error _ => True
  | .ok _, .error _ => False
  | .error _, .ok _ => False

/-- The continuation of one driver-loop step: append a fixed prefix to a
fallible tail stream. -/
def appendOk {α : Type} (a : List α) : Except String (List α) → Except String (List α)
  | .error m => .error m
  | .ok b => .ok (a ++ b)

/-- The behaviour the corrected C6 describes, as a separate definition:
write the three sets directly with the caller's ORIGINAL `doc_stride` (no
rebinding anywhere). -/
def generateWithOriginalStride (train_examples eval_examples
    test_examples : List InputExample) (labels : List String)
    (processor_type : String) (tok : Tokenizer) (max_seq_length : Nat)
    (text_preprocessing : Option (String → String)) (doc_stride : Option Nat) :
    Except String GenerateResult := do
  let ev ← write_example_to_file eval_examples tok max_seq_length
    text_preprocessing doc_stride
  let te ← write_example_to_file test_examples tok max_seq_length
    text_preprocessing doc_stride
  let tr ← write_example_to_file train_examples tok max_seq_length
    text_preprocessing doc_stride
  .ok ⟨ev.1, te.1, tr.1,
       ⟨tr.2, max_seq_length, labels.length, ev.2, te.2, labels,
        processor_type⟩⟩

/-! ## Correctness of `_check_is_max_context` -/

theorem bestAux_append_single (p : Nat) (l : List DocSpan) (x : DocSpan) :
    ∀ (i : Nat) (acc : Option (Nat × Nat)),
      bestAux p (l ++ [x]) i acc = bestStep p (bestAux p l i acc) (i + l.length) x := by
  induction l with
  | nil => intro i acc; simp [bestAux]
  | cons y l ih =>
    intro i acc
    have hlen : i + (y :: l).length = i + 1 + l.length := by
      simp only [List.length_cons]; omega
    simp only [List.cons_append, bestAux, List.append_eq, ih, hlen]

/-- Characterization of the running-best fold from the initial state: when it
returns `none` no span covers `p`; when it returns `some (b, s)`, `b` is a
covering index of score `s`, every covering index has score at most `s`, and
`b` is the least covering index achieving `s`. -/
theorem bestAux_spec (p : Nat) (spans : List DocSpan) :
    (bestAux p spans 0 none = none →
      ∀ (j : Nat) (sp : DocSpan), spans[j]? = some sp → coversB sp p = false) ∧
    (∀ b s, bestAux p spans 0 none = some (b, s) →
      ∃ spb, spans[b]? = some spb ∧ coversB spb p = true ∧ s = score100 spb p ∧
        (∀ (j : Nat) (sp : DocSpan), spans[j]? = some sp →
          coversB sp p = true → score100 sp p ≤ s) ∧
        (∀ (j : Nat) (sp : DocSpan), spans[j]? = some sp →
          coversB sp p = true → score100 sp p = s → b ≤ j)) := by
  induction spans using List.reverseRecOn with
  | nil =>
    constructor
    · intro _ j sp hj; simp at hj
    · intro b s h; simp [bestAux] at h
  | append_singleton l x ih =>
    have hsnoc := bestAux_append_single p l x 0 none
    simp only [Nat.zero_add] at hsnoc
    -- index case analysis helper
    have hidx : ∀ (j : Nat) (sp : DocSpan), (l ++ [x])[j]? = some sp →
        (j < l.length ∧ l[j]? = some sp) ∨ (j = l.length ∧ sp = x) := by
      intro j sp hj
      rcases Nat.lt_trichotomy j l.length with hlt | heq | hgt
      · left
        refine ⟨hlt, ?_⟩
        rw [List.getElem?_append] at hj
        simpa [hlt] using hj
      · right
        subst heq
        rw [List.getElem?_concat_length] at hj
        exact ⟨rfl, (Option.some_inj.mp hj).symm⟩
      · exfalso
        rw [List.getElem?_eq_none (by simp; omega)] at hj
        exact Option.noConfusion hj
    have hgetl : ∀ (j : Nat), j < l.length → (l ++ [x])[j]? = l[j]? := by
      intro j hlt
      rw [List.getElem?_append]
      simp [hlt]
    cases hacc : bestAux p l 0 none with
    | none =>
      have hnone := ih.1 hacc
      constructor
      · intro hres j sp hj
        rw [hsnoc, hacc] at hres
        rcases hidx j sp hj with ⟨hlt, hget⟩ | ⟨heq, hsp⟩
        · exact hnone j sp hget
        · subst hsp
          by_contra hcov
          simp only [Bool.not_eq_false] at hcov
          simp [bestStep, hcov] at hres
      · intro b s hres
        rw [hsnoc, hacc] at hres
        by_cases hcov : coversB x p = true
        · simp only [bestStep, hcov, if_pos] at hres
          obtain ⟨hb, hs⟩ : b = l.length ∧ s = score100 x p := by
            simpa using And.intro (congrArg Prod.fst (Option.some_inj.mp hres)).symm
              (congrArg Prod.snd (Option.some_inj.mp hres)).symm
          subst hb; subst hs
          refine ⟨x, List.getElem?_concat_length l x, hcov, rfl, ?_, ?_⟩
          · intro j sp hj hc
            rcases hidx j sp hj with ⟨hlt, hget⟩ | ⟨heq, hsp⟩
            · rw [hnone j sp hget] at hc; exact Bool.noConfusion hc
            · subst hsp; exact le_refl _
          · intro j sp hj hc _
            rcases hidx j sp hj with ⟨hlt, hget⟩ | ⟨heq, hsp⟩
            · rw [hnone j sp hget] at hc; exact Bool.noConfusion hc
            · omega
        · simp only [Bool.not_eq_true] at hcov
          simp [bestStep, hcov] at hres
    | some bs =>
      obtain ⟨b0, s0⟩ := bs
      obtain ⟨spb, hspb, hcovb, hs0, hmax, htie⟩ := ih.2 b0 s0 hacc
      have hb0lt : b0 < l.length := (List.getElem?_eq_some.mp hspb).1
      constructor
      · intro hres
        rw [hsnoc, hacc] at hres
        exfalso
        by_cases hcov : coversB x p = true
        · by_cases hlt : s0 < score100 x p <;> simp [bestStep, hcov, hlt] at hres
        · simp only [Bool.not_eq_true] at hcov
          simp [bestStep, hcov] at hres
      · intro b s hres
        rw [hsnoc, hacc] at hres
        by_cases hcov : coversB x p = true
        · by_cases hlt : s0 < score100 x p
          · simp only [bestStep, hcov, if_pos, hlt, if_true] at hres
            obtain ⟨hb, hs⟩ : b = l.length ∧ s = score100 x p := by
              simpa using And.intro (congrArg Prod.fst (Option.some_inj.mp hres)).symm
                (congrArg Prod.snd (Option.some_inj.mp hres)).symm
            subst hb; subst hs
            refine ⟨x, List.getElem?_concat_length l x, hcov, rfl, ?_, ?_⟩
            · intro j sp hj hc
              rcases hidx j sp hj with ⟨hjlt, hget⟩ | ⟨heq, hsp⟩
              · exact le_of_lt (lt_of_le_of_lt (hmax j sp hget hc) hlt)
              · subst hsp; exact le_refl _
            · intro j sp hj hc hsc
              rcases hidx j sp hj with ⟨hjlt, hget⟩ | ⟨heq, hsp⟩
              · exact absurd hsc (Nat.ne_of_lt (lt_of_le_of_lt (hmax j sp hget hc) hlt))
              · omega
          · simp only [bestStep, hcov, if_pos, hlt, if_false] at hres
            obtain ⟨hb, hs⟩ : b = b0 ∧ s = s0 := by
              simpa using And.intro (congrArg Prod.fst (Option.some_inj.mp hres)).symm
                (congrArg Prod.snd (Option.some_inj.mp hres)).symm
            rw [hb, hs]
            refine ⟨spb, by rw [hgetl b0 hb0lt]; exact hspb, hcovb, hs0, ?_, ?_⟩
            · intro j sp hj hc
              rcases hidx j sp hj with ⟨hjlt, hget⟩ | ⟨heq, hsp⟩
              · exact hmax j sp hget hc
              · subst hsp; omega
            · intro j sp hj hc hsc
              rcases hidx j sp hj with ⟨hjlt, hget⟩ | ⟨heq, hsp⟩
              · exact htie j sp hget hc hsc
              · omega
        · simp only [Bool.not_eq_true] at hcov
          simp only [bestStep, hcov, Bool.false_eq_true, if_false] at hres
          obtain ⟨hb, hs⟩ : b = b0 ∧ s = s0 := by
            simpa using And.intro (congrArg Prod.fst (Option.some_inj.mp hres)).symm
              (congrArg Prod.snd (Option.some_inj.mp hres)).symm
          rw [hb, hs]
          refine ⟨spb, by rw [hgetl b0 hb0lt]; exact hspb, hcovb, hs0, ?_, ?_⟩
          · intro j sp hj hc
            rcases hidx j sp hj with ⟨hjlt, hget⟩ | ⟨heq, hsp⟩
            · exact hmax j sp hget hc
            · subst hsp; rw [hcov] at hc; exact Bool.noConfusion hc
          · intro j sp hj hc hsc
            rcases hidx j sp hj with ⟨hjlt, hget⟩ | ⟨heq, hsp⟩
            · exact htie j sp hget hc hsc
            · subst hsp; rw [hcov] at hc; exact Bool.noConfusion hc

theorem check_iff_best (spans : List DocSpan) (k p : Nat) :
    _check_is_max_context spans k p = true ↔
      ∃ s, bestAux p spans 0 none = some (k, s) := by
  unfold _check_is_max_context
  cases h : bestAux p spans 0 none with
  | none => simp
  | some bs =>
    obtain ⟨b, s⟩ := bs
    show (k == b) = true ↔ _
    constructor
    · intro hk
      have hk' : k = b := by simpa using hk
      exact ⟨s, by rw [hk']⟩
    · rintro ⟨s', hs'⟩
      have hbk : b = k := congrArg Prod.fst (Option.some_inj.mp hs')
      show (k == b) = true
      simp [hbk]

theorem check_unique (spans : List DocSpan) (p i k : Nat)
    (hi : _check_is_max_context spans i p = true)
    (hk : _check_is_max_context spans k p = true) : i = k := by
  obtain ⟨s, hs⟩ := (check_iff_best spans i p).mp hi
  obtain ⟨s', hs'⟩ := (check_iff_best spans k p).mp hk
  rw [hs] at hs'
  exact (Prod.mk.injEq .. ▸ Option.some_inj.mp hs').1

theorem check_covers (spans : List DocSpan) (p i : Nat)
    (hi : _check_is_max_context spans i p = true) :
    ∃ sp, spans[i]? = some sp ∧ coversB sp p = true := by
  obtain ⟨s, hs⟩ := (check_iff_best spans i p).mp hi
  obtain ⟨spb, hspb, hcov, _⟩ := (bestAux_spec p spans).2 i s hs
  exact ⟨spb, hspb, hcov⟩

theorem check_exists (spans : List DocSpan) (p : Nat)
    (hcov : ∃ sp ∈ spans, coversB sp p = true) :
    ∃ i : Nat, _check_is_max_context spans i p = true := by
  obtain ⟨sp, hmem, hc⟩ := hcov
  cases h : bestAux p spans 0 none with
  | none =>
    exfalso
    obtain ⟨j, hjlt, hj⟩ := List.getElem_of_mem hmem
    have hj? : spans[j]? = some sp := by
      rw [List.getElem?_eq_getElem hjlt, hj]
    rw [(bestAux_spec p spans).1 h j sp hj?] at hc
    exact Bool.noConfusion hc
  | some bs =>
    obtain ⟨b, s⟩ := bs
    exact ⟨b, (check_iff_best spans b p).mpr ⟨s, h⟩⟩

/-- C1: for every list of generated spans and every labeled global position
`p` covered by at least one span, `_check_is_max_context(doc_spans, i, p)`
returns true for exactly one index `i`, namely the covering span maximizing
`score = min(left, right) + 0.01 * length` (scaled integer `score100`);
between covering spans with equal `min(left, right)` the longer span scores
strictly higher, and between covering spans with exactly equal score the
earlier-generated (smaller-index) span wins, since the update comparison is
strict. -/
theorem max_context_owner_unique (doc_spans : List DocSpan) (p : Nat)
    (hcov : ∃ sp ∈ doc_spans, coversB sp p = true) :
    ∃ i : Nat, ∃ spi : DocSpan,
      _check_is_max_context doc_spans i p = true ∧
      doc_spans[i]? = some spi ∧ coversB spi p = true ∧
      (∀ (j : Nat) (sp : DocSpan), doc_spans[j]? = some sp →
        coversB sp p = true → score100 sp p ≤ score100 spi p) ∧
      (∀ (j : Nat) (sp : DocSpan), doc_spans[j]? = some sp →
        coversB sp p = true → score100 sp p = score100 spi p → i ≤ j) ∧
      (∀ sp sp' : DocSpan, coversB sp p = true → coversB sp' p = true →
        minCtx sp p = minCtx sp' p → sp'.length < sp.length →
        score100 sp' p < score100 sp p) ∧
      (∀ k : Nat, _check_is_max_context doc_spans k p = true → k = i) := by
  obtain ⟨i, hi⟩ := check_exists doc_spans p hcov
  obtain ⟨s, hs⟩ := (check_iff_best doc_spans i p).mp hi
  obtain ⟨spi, hspi, hcovi, hsi, hmax, htie⟩ := (bestAux_spec p doc_spans).2 i s hs
  refine ⟨i, spi, hi, hspi, hcovi, ?_, ?_, ?_, ?_⟩
  · intro j sp hj hc
    rw [hsi] at hmax
    exact hmax j sp hj hc
  · intro j sp hj hc hsc
    exact htie j sp hj hc (by rw [hsc, hsi])
  · intro sp sp' _ _ hmin hlen
    simp only [score100, hmin]
    omega
  · intro k hk
    exact check_unique doc_spans p k i hk hi

/-- Concrete instance of `max_context_owner_unique`: two overlapping length-2
spans both covering position 1; the earlier span wins the exact tie. -/
theorem max_context_owner_unique_witness :
    (∃ sp ∈ [(⟨0, 2, [], [false, false]⟩ : DocSpan), ⟨1, 2, [], [false, false]⟩],
      coversB sp 1 = true) ∧
    (∃ i : Nat, ∃ spi : DocSpan,
      _check_is_max_context
        [(⟨0, 2, [], [false, false]⟩ : DocSpan), ⟨1, 2, [], [false, false]⟩] i 1 = true ∧
      [(⟨0, 2, [], [false, false]⟩ : DocSpan), ⟨1, 2, [], [false, false]⟩][i]? = some spi ∧
      coversB spi 1 = true ∧
      (∀ (j : Nat) (sp : DocSpan),
        [(⟨0, 2, [], [false, false]⟩ : DocSpan), ⟨1, 2, [], [false, false]⟩][j]? = some sp →
        coversB sp 1 = true → score100 sp 1 ≤ score100 spi 1) ∧
      (∀ (j : Nat) (sp : DocSpan),
        [(⟨0, 2, [], [false, false]⟩ : DocSpan), ⟨1, 2, [], [false, false]⟩][j]? = some sp →
        coversB sp 1 = true → score100 sp 1 = score100 spi 1 → i ≤ j) ∧
      (∀ sp sp' : DocSpan, coversB sp 1 = true → coversB sp' 1 = true →
        minCtx sp 1 = minCtx sp' 1 → sp'.length < sp.length →
        score100 sp' 1 < score100 sp 1) ∧
      (∀ k : Nat, _check_is_max_context
        [(⟨0, 2, [], [false, false]⟩ : DocSpan), ⟨1, 2, [], [false, false]⟩] k 1 = true →
        k = i)) :=
  ⟨by decide, max_context_owner_unique _ 1 (by decide)⟩

/-! ## Correctness of the span-generation loop -/

theorem spanLoopFuel_spec (totalLen cap stride : Nat) (hcap : 1 ≤ cap)
    (hstride : 1 ≤ stride) :
    ∀ (fuel start : Nat), start < totalLen → totalLen - start ≤ fuel →
      ∃ pairs, spanLoopFuel totalLen cap stride fuel start = some pairs ∧
        pairs ≠ [] ∧
        (∀ q ∈ pairs, q.2 = min cap (totalLen - q.1) ∧ q.1 < totalLen) ∧
        pairs.head? = some (start, min cap (totalLen - start)) ∧
        List.Chain' (fun a b : Nat × Nat => b.1 = a.1 + min a.2 stride) pairs ∧
        (∃ q : Nat × Nat, pairs.getLast? = some q ∧ q.1 + q.2 = totalLen) ∧
        (∀ pos : Nat, start ≤ pos → pos < totalLen →
          ∃ q ∈ pairs, q.1 ≤ pos ∧ pos < q.1 + q.2) := by
  intro fuel
  induction fuel with
  | zero => intro start hlt hfuel; omega
  | succ fuel ih =>
    intro start hlt hfuel
    have hmin : (if totalLen - start > cap then cap else totalLen - start) =
        min cap (totalLen - start) := by
      rcases Nat.lt_or_ge cap (totalLen - start) with h | h
      · rw [if_pos h, Nat.min_eq_left (le_of_lt h)]
      · rw [if_neg (by omega), Nat.min_eq_right h]
    set length := min cap (totalLen - start) with hlen
    have hlen1 : 1 ≤ length := by omega
    have hlenle : start + length ≤ totalLen := by omega
    by_cases hbreak : start + length = totalLen
    · refine ⟨[(start, length)], ?_, by simp, ?_, by simp, List.chain'_singleton _,
        ⟨(start, length), by simp, hbreak⟩, ?_⟩
      · rw [spanLoopFuel]
        simp only [hlt, if_true, hmin]
        rw [if_pos hbreak]
      · intro q hq
        simp only [List.mem_singleton] at hq
        subst hq
        exact ⟨rfl, hlt⟩
      · intro pos hle hplt
        exact ⟨(start, length), by simp, hle, by omega⟩
    · have hstep1 : 1 ≤ min length stride := by omega
      have hlt' : start + min length stride < totalLen := by omega
      have hfuel' : totalLen - (start + min length stride) ≤ fuel := by omega
      obtain ⟨pairs, hrun, hne, hall, hhead, hchain, hlast, hcovall⟩ :=
        ih (start + min length stride) hlt' hfuel'
      refine ⟨(start, length) :: pairs, ?_, by simp, ?_, by simp, ?_, ?_, ?_⟩
      · rw [spanLoopFuel]
        simp only [hlt, if_true, hmin]
        rw [if_neg hbreak, hrun]
        rfl
      · intro q hq
        rcases List.mem_cons.mp hq with hq | hq
        · subst hq; exact ⟨rfl, hlt⟩
        · exact hall q hq
      · rw [List.chain'_cons']
        refine ⟨?_, hchain⟩
        intro y hy
        rw [hhead] at hy
        simp only [Option.mem_def, Option.some_inj] at hy
        subst hy
        rfl
      · obtain ⟨q, hq, hqe⟩ := hlast
        refine ⟨q, ?_, hqe⟩
        cases pairs with
        | nil => exact absurd rfl hne
        | cons p rest => rw [List.getLast?_cons_cons]; exact hq
      · intro pos hle hplt
        by_cases hin : pos < start + length
        · exact ⟨(start, length), List.mem_cons_self _ _, hle, hin⟩
        · obtain ⟨q, hq, hcov⟩ := hcovall pos (by omega) hplt
          exact ⟨q, List.mem_cons_of_mem _ hq, hcov⟩

/-- C3 (amended with `max_seq_length ≥ 3`): for a non-empty flattened
sequence, positive stride, and positive effective capacity, the span loop
terminates; every enumerated span has
`length = min(max_seq_length - 2, totalLen - start)`, starts advance by
`min(length, stride)`, the spans cover `[0, totalLen)` with no gap, and the
final span ends exactly at `totalLen`. -/
theorem span_generation_covers (totalLen stride max_seq_length : Nat)
    (htot : 1 ≤ totalLen) (hstride : 1 ≤ stride) (hmsl : 3 ≤ max_seq_length) :
    ∃ pairs, spanLoopFuel totalLen (max_seq_length - 2) stride totalLen 0 = some pairs ∧
      pairs ≠ [] ∧
      (∀ q ∈ pairs, q.2 = min (max_seq_length - 2) (totalLen - q.1)) ∧
      pairs.head? = some (0, min (max_seq_length - 2) totalLen) ∧
      List.Chain' (fun a b : Nat × Nat => b.1 = a.1 + min a.2 stride) pairs ∧
      (∃ q : Nat × Nat, pairs.getLast? = some q ∧ q.1 + q.2 = totalLen) ∧
      (∀ pos : Nat, pos < totalLen → ∃ q ∈ pairs, q.1 ≤ pos ∧ pos < q.1 + q.2) := by
  obtain ⟨pairs, hrun, hne, hall, hhead, hchain, hlast, hcov⟩ :=
    spanLoopFuel_spec totalLen (max_seq_length - 2) stride (by omega) hstride
      totalLen 0 (by omega) (by omega)
  refine ⟨pairs, hrun, hne, fun q hq => (hall q hq).1, by simpa using hhead, hchain,
    hlast, fun pos hpos => hcov pos (Nat.zero_le _) hpos⟩

/-- `span_generation_covers` at a concrete instance: 3 tokens, capacity 2,
stride 1. -/
theorem span_generation_covers_witness :
    1 ≤ 3 ∧ 1 ≤ 1 ∧ 3 ≤ 4 ∧
    (∃ pairs, spanLoopFuel 3 (4 - 2) 1 3 0 = some pairs ∧
      pairs ≠ [] ∧
      (∀ q ∈ pairs, q.2 = min (4 - 2) (3 - q.1)) ∧
      pairs.head? = some (0, min (4 - 2) 3) ∧
      List.Chain' (fun a b : Nat × Nat => b.1 = a.1 + min a.2 1) pairs ∧
      (∃ q : Nat × Nat, pairs.getLast? = some q ∧ q.1 + q.2 = 3) ∧
      (∀ pos : Nat, pos < 3 → ∃ q ∈ pairs, q.1 ≤ pos ∧ pos < q.1 + q.2)) :=
  ⟨by decide, by decide, by decide,
   span_generation_covers 3 1 4 (by decide) (by decide) (by decide)⟩

/-- C3 counterexample to the unamended claim: with `max_seq_length = 2`
(capacity `2 - 2 = 0`), a single token and stride 1, the span-generation
loop never terminates: `length` is computed as 0, the break test
`start + length == total_length` fails forever, and `start` advances by
`min(0, 1) = 0`. -/
theorem span_generation_counterexample : ¬ spanLoopTerminates 1 (2 - 2) 1 := by
  have hstuck : ∀ fuel : Nat, spanLoopFuel 1 0 1 fuel 0 = none := by
    intro fuel
    induction fuel with
    | zero => rfl
    | succ fuel ih =>
      rw [spanLoopFuel]
      simp [ih]
  rintro ⟨fuel, hterm⟩
  rw [show (2 : Nat) - 2 = 0 from rfl, hstuck fuel] at hterm
  exact Bool.noConfusion hterm

/-! ## Uniqueness of the best-context marking -/

theorem markSpan_flag (spans : List DocSpan) (i : Nat) (sp : DocSpan)
    (ix : List Nat) (p : Nat) (hstart : sp.start ≤ p)
    (hlt : p < sp.start + sp.length) (hp : p ∈ ix) :
    (markSpan spans i sp ix).best_context.getD (p - sp.start) false =
      _check_is_max_context spans i p := by
  have hk : p - sp.start < sp.length := by omega
  have hpk : sp.start + (p - sp.start) = p := by omega
  unfold markSpan
  rw [List.getD_eq_getElem?_getD, List.getElem?_map,
    List.getElem?_range hk]
  simp only [Option.map_some', Option.getD_some]
  cases hc : _check_is_max_context spans i p with
  | true =>
    apply List.any_eq_true.mpr
    exact ⟨p, hp, by simp [hpk, hc]⟩
  | false =>
    apply List.any_eq_false.mpr
    intro v hv
    simp only [Bool.and_eq_true, beq_iff_eq, not_and]
    intro hveq
    rw [hveq, hpk, hc]
    simp

theorem optimalAux_countP (spans : List DocSpan) (ix : List Nat) (p : Nat)
    (hp : p ∈ ix) :
    ∀ (l : List DocSpan) (i : Nat),
      (∀ (k : Nat) (sp : DocSpan), l[k]? = some sp → spans[i + k]? = some sp) →
      (optimalAux spans ix l i).countP
          (fun sp => coversB sp p && sp.best_context.getD (p - sp.start) false)
        = ((List.range' i l.length).filter
            (fun j => _check_is_max_context spans j p)).length := by
  intro l
  induction l with
  | nil => intro i _; simp [optimalAux]
  | cons sp rest ih =>
    intro i hsub
    have hsp : spans[i]? = some sp := by simpa using hsub 0 sp (by simp)
    have hrest : ∀ (k : Nat) (sp' : DocSpan), rest[k]? = some sp' →
        spans[i + 1 + k]? = some sp' := by
      intro k sp' hk
      have h1 : (sp :: rest)[k + 1]? = some sp' := by simpa using hk
      have := hsub (k + 1) sp' h1
      rwa [show i + (k + 1) = i + 1 + k by omega] at this
    -- the head's contribution equals `_check_is_max_context spans i p`
    have hhead : ∀ msp, msp = markSpan spans i sp ix →
        (coversB msp p && msp.best_context.getD (p - msp.start) false) =
          _check_is_max_context spans i p := by
      intro msp hmsp
      subst hmsp
      have hstartlen : (markSpan spans i sp ix).start = sp.start ∧
          (markSpan spans i sp ix).length = sp.length := ⟨rfl, rfl⟩
      cases hcv : coversB sp p with
      | true =>
        obtain ⟨hst, hltp⟩ : sp.start ≤ p ∧ p < sp.start + sp.length := by
          have := hcv
          unfold coversB at this
          simpa using this
        have hflag := markSpan_flag spans i sp ix p hst hltp hp
        show (coversB sp p && (markSpan spans i sp ix).best_context.getD
          (p - sp.start) false) = _check_is_max_context spans i p
        rw [hcv, hflag]
        simp
      | false =>
        have hchk : _check_is_max_context spans i p = false := by
          cases hchk : _check_is_max_context spans i p with
          | false => rfl
          | true =>
            obtain ⟨sp', hsp', hcov'⟩ := check_covers spans p i hchk
            rw [hsp] at hsp'
            have hspeq : sp = sp' := Option.some_inj.mp hsp'
            rw [← hspeq, hcv] at hcov'
            exact Bool.noConfusion hcov'
        show (coversB sp p && _) = _
        rw [hcv, hchk]
        simp
    have hrange : List.range' i (rest.length + 1) = i :: List.range' (i + 1) rest.length :=
      List.range'_succ i rest.length 1
    cases hhas : hasMaxContext spans i sp ix with
    | true =>
      have hchk_eq := hhead (markSpan spans i sp ix) rfl
      have hunfold : optimalAux spans ix (sp :: rest) i =
          markSpan spans i sp ix :: optimalAux spans ix rest (i + 1) := by
        simp [optimalAux, hhas]
      rw [hunfold, List.countP_cons, ih (i + 1) hrest, List.length_cons, hrange,
        List.filter_cons]
      rw [hchk_eq]
      cases hc : _check_is_max_context spans i p <;> simp [hc, Nat.add_comm]
    | false =>
      -- a dropped span owns no max-context position, in particular not `p`
      have hchk : _check_is_max_context spans i p = false := by
        cases hchk : _check_is_max_context spans i p with
        | false => rfl
        | true =>
          obtain ⟨sp', hsp', hcov'⟩ := check_covers spans p i hchk
          rw [hsp] at hsp'
          have hspeq : sp = sp' := Option.some_inj.mp hsp'
          have hmark : hasMaxContext spans i sp ix = true := by
            apply List.any_eq_true.mpr
            refine ⟨p, hp, ?_⟩
            rw [← hspeq] at hcov'
            unfold coversB at hcov'
            simp only [Bool.and_eq_true, decide_eq_true_eq] at hcov' ⊢
            exact ⟨⟨hcov'.1, hcov'.2⟩, hchk⟩
          rw [hhas] at hmark
          exact Bool.noConfusion hmark
      have hunfold : optimalAux spans ix (sp :: rest) i =
          optimalAux spans ix rest (i + 1) := by
        simp [optimalAux, hhas]
      rw [hunfold, ih (i + 1) hrest, List.length_cons, hrange, List.filter_cons, hchk]
      simp

theorem filter_length_one {l : List Nat} {P : Nat → Bool} {i0 : Nat}
    (hnd : l.Nodup) (hmem : i0 ∈ l) (hP : P i0 = true)
    (huniq : ∀ j ∈ l, P j = true → j = i0) :
    (l.filter P).length = 1 := by
  induction l with
  | nil => simp at hmem
  | cons a l ih =>
    rcases List.mem_cons.mp hmem with rfl | hmem'
    · rw [List.filter_cons_of_pos hP]
      have hnil : l.filter P = [] := by
        apply List.filter_eq_nil_iff.mpr
        intro b hb hPb
        have hbi := huniq b (List.mem_cons_of_mem _ hb) hPb
        subst hbi
        exact (List.nodup_cons.mp hnd).1 hb
      simp [hnil]
    · have ha : P a = false := by
        cases h : P a with
        | false => rfl
        | true =>
          have hai := huniq a (List.mem_cons_self _ _) h
          subst hai
          exact absurd hmem' (List.nodup_cons.mp hnd).1
      rw [List.filter_cons_of_neg (by simp [ha])]
      exact ih (List.nodup_cons.mp hnd).2 hmem'
        (fun j hj => huniq j (List.mem_cons_of_mem _ hj))

/-- C2: for a document processed through the windowing path, every labeled
global position `p` lying inside at least one retained span has its
best-context flag set in exactly one emitted span of `optimal_span_list`
(counted via the flag at local offset `p - start` among covering spans). -/
theorem best_context_marked_once (words : List String) (labels : List Int)
    (tok : Tokenizer) (max_seq_length stride : Nat)
    (pairs : List (Nat × Nat)) (p : Nat)
    (_hpairs : spanLoopFuel (expandDoc tok words labels).1.length
      (max_seq_length - 2) stride (expandDoc tok words labels).1.length 0 =
      some pairs)
    (hp : p ∈ (expandDoc tok words labels).2.2)
    (hcov : ∃ sp ∈ docSpansOf (expandDoc tok words labels).2.2 pairs,
      coversB sp p = true) :
    ((optimalSpans (docSpansOf (expandDoc tok words labels).2.2 pairs)
        (expandDoc tok words labels).2.2).countP
      (fun sp => coversB sp p && sp.best_context.getD (p - sp.start) false)) = 1 := by
  set ix := (expandDoc tok words labels).2.2 with hix
  set spans := docSpansOf ix pairs with hspans
  obtain ⟨i, hchk⟩ := check_exists spans p hcov
  obtain ⟨spi, hspi, _⟩ := check_covers spans p i hchk
  have hiLT : i < spans.length := (List.getElem?_eq_some.mp hspi).1
  rw [optimalSpans, optimalAux_countP spans ix p hp spans 0
    (by intro k sp h; simpa using h)]
  have hmem : i ∈ List.range' 0 spans.length :=
    (List.mem_range'_1).mpr ⟨Nat.zero_le _, by omega⟩
  exact filter_length_one (List.nodup_range' 0 spans.length) hmem hchk
    (fun j _ hj => check_unique spans p j i hj hchk)

/-- `best_context_marked_once` at a concrete instance: three identity-token
words with real labels, capacity 2, stride 1 (two overlapping retained
spans). -/
theorem best_context_marked_once_witness :
    (spanLoopFuel (expandDoc ⟨fun s => [s], fun _ => 7⟩ ["a", "b", "c"] [1, 1, 1]).1.length
      (4 - 2) 1 (expandDoc ⟨fun s => [s], fun _ => 7⟩ ["a", "b", "c"] [1, 1, 1]).1.length 0 =
      some [(0, 2), (1, 2)]) ∧
    (1 ∈ (expandDoc ⟨fun s => [s], fun _ => 7⟩ ["a", "b", "c"] [1, 1, 1]).2.2) ∧
    (∃ sp ∈ docSpansOf (expandDoc ⟨fun s => [s], fun _ => 7⟩ ["a", "b", "c"] [1, 1, 1]).2.2
      [(0, 2), (1, 2)], coversB sp 1 = true) ∧
    ((optimalSpans
        (docSpansOf (expandDoc ⟨fun s => [s], fun _ => 7⟩ ["a", "b", "c"] [1, 1, 1]).2.2
          [(0, 2), (1, 2)])
        (expandDoc ⟨fun s => [s], fun _ => 7⟩ ["a", "b", "c"] [1, 1, 1]).2.2).countP
      (fun sp => coversB sp 1 && sp.best_context.getD (1 - sp.start) false)) = 1 :=
  ⟨by decide, by decide, by decide,
   best_context_marked_once ["a", "b", "c"] [1, 1, 1] ⟨fun s => [s], fun _ => 7⟩ 4 1
     [(0, 2), (1, 2)] 1 (by decide) (by decide) (by decide)⟩

/-! ## Shape of the assembled feature record -/

theorem getElem?_append_left_of_lt {α : Type} (l1 l2 : List α) (k : Nat)
    (h : k < l1.length) : (l1 ++ l2)[k]? = l1[k]? := by
  rw [List.getElem?_append]
  simp [h]

theorem getElem?_append_right_of_le {α : Type} (l1 l2 : List α) (k : Nat)
    (h : l1.length ≤ k) : (l1 ++ l2)[k]? = l2[k - l1.length]? := by
  rw [List.getElem?_append]
  rw [if_neg (by omega)]

/-- C4 (under the data-model invariant that the three per-position arrays of
an `InputExample` have equal lengths): for an example fitting the effective
budget, all five arrays of the produced record have length exactly
`max_seq_length`; the `[CLS]` position 0 and the `[SEP]` position
`len(words) + 1` carry label `-1` and best-context `false`; and every
trailing position is padded with `(0, 0, 0, -1, false)`. -/
theorem convert_single_example_shape (ex : InputExample) (max_seq_length : Nat)
    (tok : Tokenizer) (hn : ex.words.length + 2 ≤ max_seq_length)
    (hl : ex.label_ids.length = ex.words.length)
    (hb : ex.best_context.length = ex.words.length) :
    ((_convert_single_example ex max_seq_length tok).input_ids.length = max_seq_length) ∧
    ((_convert_single_example ex max_seq_length tok).input_mask.length = max_seq_length) ∧
    ((_convert_single_example ex max_seq_length tok).segment_ids.length = max_seq_length) ∧
    ((_convert_single_example ex max_seq_length tok).label_ids.length = max_seq_length) ∧
    ((_convert_single_example ex max_seq_length tok).best_context.length = max_seq_length) ∧
    ((_convert_single_example ex max_seq_length tok).label_ids[0]? = some (-1)) ∧
    ((_convert_single_example ex max_seq_length tok).best_context[0]? = some false) ∧
    ((_convert_single_example ex max_seq_length tok).label_ids[ex.words.length + 1]? =
      some (-1)) ∧
    ((_convert_single_example ex max_seq_length tok).best_context[ex.words.length + 1]? =
      some false) ∧
    (∀ k : Nat, ex.words.length + 2 ≤ k → k < max_seq_length →
      ((_convert_single_example ex max_seq_length tok).input_ids[k]? = some 0) ∧
      ((_convert_single_example ex max_seq_length tok).input_mask[k]? = some 0) ∧
      ((_convert_single_example ex max_seq_length tok).segment_ids[k]? = some 0) ∧
      ((_convert_single_example ex max_seq_length tok).label_ids[k]? = some (-1)) ∧
      ((_convert_single_example ex max_seq_length tok).best_context[k]? = some false)) := by
  unfold _convert_single_example
  simp only []
  refine ⟨?_, ?_, ?_, ?_, ?_, ?_, ?_, ?_, ?_, ?_⟩
  · simp; omega
  · simp; omega
  · simp; omega
  · simp [hl]; omega
  · simp [hb]; omega
  · rw [getElem?_append_left_of_lt _ _ 0 (by simp),
      getElem?_append_left_of_lt _ _ 0 (by simp)]
    simp [_PADDING_LABEL_ID]
  · rw [getElem?_append_left_of_lt _ _ 0 (by simp),
      getElem?_append_left_of_lt _ _ 0 (by simp)]
    simp
  · rw [getElem?_append_left_of_lt _ _ (ex.words.length + 1) (by simp [hl]),
      getElem?_append_right_of_le _ _ (ex.words.length + 1) (by simp [hl])]
    simp [hl, _PADDING_LABEL_ID]
  · rw [getElem?_append_left_of_lt _ _ (ex.words.length + 1) (by simp [hb]),
      getElem?_append_right_of_le _ _ (ex.words.length + 1) (by simp [hb])]
    simp [hb]
  · intro k hk2 hkmsl
    refine ⟨?_, ?_, ?_, ?_, ?_⟩
    · rw [getElem?_append_right_of_le _ _ k (by simp; omega)]
      rw [List.getElem?_replicate, if_pos (by simp; omega)]
    · rw [getElem?_append_right_of_le _ _ k (by simp; omega)]
      rw [List.getElem?_replicate, if_pos (by simp; omega)]
    · rw [getElem?_append_right_of_le _ _ k (by simp; omega)]
      rw [List.getElem?_replicate, if_pos (by simp; omega)]
    · rw [getElem?_append_right_of_le _ _ k (by simp [hl]; omega)]
      rw [List.getElem?_replicate, if_pos (by simp [hl]; omega)]
      simp [_PADDING_LABEL_ID]
    · rw [getElem?_append_right_of_le _ _ k (by simp [hb]; omega)]
      rw [List.getElem?_replicate, if_pos (by simp [hb]; omega)]

/-- `convert_single_example_shape` at a concrete instance: one word,
`max_seq_length = 4`. -/
theorem convert_single_example_shape_witness :
    ((1 : Nat) + 2 ≤ 4) ∧
    (((_convert_single_example ⟨0, ["a"], [5], [true]⟩ 4
      ⟨fun s => [s], fun _ => 3⟩).input_ids.length = 4) ∧
    ((_convert_single_example ⟨0, ["a"], [5], [true]⟩ 4
      ⟨fun s => [s], fun _ => 3⟩).input_mask.length = 4) ∧
    ((_convert_single_example ⟨0, ["a"], [5], [true]⟩ 4
      ⟨fun s => [s], fun _ => 3⟩).segment_ids.length = 4) ∧
    ((_convert_single_example ⟨0, ["a"], [5], [true]⟩ 4
      ⟨fun s => [s], fun _ => 3⟩).label_ids.length = 4) ∧
    ((_convert_single_example ⟨0, ["a"], [5], [true]⟩ 4
      ⟨fun s => [s], fun _ => 3⟩).best_context.length = 4) ∧
    ((_convert_single_example ⟨0, ["a"], [5], [true]⟩ 4
      ⟨fun s => [s], fun _ => 3⟩).label_ids[0]? = some (-1)) ∧
    ((_convert_single_example ⟨0, ["a"], [5], [true]⟩ 4
      ⟨fun s => [s], fun _ => 3⟩).best_context[0]? = some false) ∧
    ((_convert_single_example ⟨0, ["a"], [5], [true]⟩ 4
      ⟨fun s => [s], fun _ => 3⟩).label_ids[(["a"] : List String).length + 1]? =
        some (-1)) ∧
    ((_convert_single_example ⟨0, ["a"], [5], [true]⟩ 4
      ⟨fun s => [s], fun _ => 3⟩).best_context[(["a"] : List String).length + 1]? =
        some false) ∧
    (∀ k : Nat, (["a"] : List String).length + 2 ≤ k → k < 4 →
      ((_convert_single_example ⟨0, ["a"], [5], [true]⟩ 4
        ⟨fun s => [s], fun _ => 3⟩).input_ids[k]? = some 0) ∧
      ((_convert_single_example ⟨0, ["a"], [5], [true]⟩ 4
        ⟨fun s => [s], fun _ => 3⟩).input_mask[k]? = some 0) ∧
      ((_convert_single_example ⟨0, ["a"], [5], [true]⟩ 4
        ⟨fun s => [s], fun _ => 3⟩).segment_ids[k]? = some 0) ∧
      ((_convert_single_example ⟨0, ["a"], [5], [true]⟩ 4
        ⟨fun s => [s], fun _ => 3⟩).label_ids[k]? = some (-1)) ∧
      ((_convert_single_example ⟨0, ["a"], [5], [true]⟩ 4
        ⟨fun s => [s], fun _ => 3⟩).best_context[k]? = some false))) :=
  ⟨by decide,
   convert_single_example_shape ⟨0, ["a"], [5], [true]⟩ 4 ⟨fun s => [s], fun _ => 3⟩
     (by decide) (by decide) (by decide)⟩

/-- C9 (amended): on an example exceeding the effective budget,
`_convert_single_example` raises nothing (the source has no length check):
it emits a record whose five arrays all have length `len(words) + 2`, which
is strictly greater than `max_seq_length` — no truncation, but no loud
failure either. -/
theorem convert_single_example_overlong (ex : InputExample)
    (max_seq_length : Nat) (tok : Tokenizer)
    (hn : max_seq_length < ex.words.length + 2)
    (hl : ex.label_ids.length = ex.words.length)
    (hb : ex.best_context.length = ex.words.length) :
    ((_convert_single_example ex max_seq_length tok).input_ids.length =
      ex.words.length + 2) ∧
    ((_convert_single_example ex max_seq_length tok).input_mask.length =
      ex.words.length + 2) ∧
    ((_convert_single_example ex max_seq_length tok).segment_ids.length =
      ex.words.length + 2) ∧
    ((_convert_single_example ex max_seq_length tok).label_ids.length =
      ex.words.length + 2) ∧
    ((_convert_single_example ex max_seq_length tok).best_context.length =
      ex.words.length + 2) ∧
    max_seq_length < ex.words.length + 2 := by
  unfold _convert_single_example
  simp only []
  refine ⟨?_, ?_, ?_, ?_, ?_, hn⟩ <;> simp [hl, hb] <;> omega

/-- `convert_single_example_overlong` at a concrete instance. -/
theorem convert_single_example_overlong_witness :
    ((3 : Nat) < (["a", "b"] : List String).length + 2) ∧
    (((_convert_single_example ⟨0, ["a", "b"], [1, 2], [true, true]⟩ 3
      ⟨fun s => [s], fun _ => 0⟩).input_ids.length = (["a", "b"] : List String).length + 2) ∧
    ((_convert_single_example ⟨0, ["a", "b"], [1, 2], [true, true]⟩ 3
      ⟨fun s => [s], fun _ => 0⟩).input_mask.length = (["a", "b"] : List String).length + 2) ∧
    ((_convert_single_example ⟨0, ["a", "b"], [1, 2], [true, true]⟩ 3
      ⟨fun s => [s], fun _ => 0⟩).segment_ids.length = (["a", "b"] : List String).length + 2) ∧
    ((_convert_single_example ⟨0, ["a", "b"], [1, 2], [true, true]⟩ 3
      ⟨fun s => [s], fun _ => 0⟩).label_ids.length = (["a", "b"] : List String).length + 2) ∧
    ((_convert_single_example ⟨0, ["a", "b"], [1, 2], [true, true]⟩ 3
      ⟨fun s => [s], fun _ => 0⟩).best_context.length = (["a", "b"] : List String).length + 2) ∧
    (3 : Nat) < (["a", "b"] : List String).length + 2) :=
  ⟨by decide,
   convert_single_example_overlong ⟨0, ["a", "b"], [1, 2], [true, true]⟩ 3
     ⟨fun s => [s], fun _ => 0⟩ (by decide) (by decide) (by decide)⟩

/-- C9 counterexample to the claim as stated: on a 2-word example with
`max_seq_length = 3` the source raises no error and emits a record whose
arrays have length 4, different from `max_seq_length = 3`. -/
theorem convert_single_example_no_loud_failure :
    ((_convert_single_example ⟨0, ["a", "b"], [1, 2], [true, true]⟩ 3
      ⟨fun s => [s], fun _ => 0⟩).input_ids.length = 4) ∧
    ((_convert_single_example ⟨0, ["a", "b"], [1, 2], [true, true]⟩ 3
      ⟨fun s => [s], fun _ => 0⟩).label_ids.length = 4) ∧ (4 : Nat) ≠ 3 := by
  decide

/-! ## Per-word subword substitution (`_tokenize_example`) -/

/-- C8 (amended): restricted to words whose preprocessed text is non-empty
(Python's `and word` guard exempts empty strings from the substitution) and,
for the capacity bound, to `max_length ≥ 3`: a tokenization that is empty or
longer than the effective budget `max_length - 2` is replaced by
`[_UNK_TOKEN]`, so such a word still contributes at least one subword and no
word's subword sequence exceeds the effective capacity. -/
theorem word_subwords_spec (tok : Tokenizer) (max_length : Nat) (w : String)
    (hw : w ≠ "") (hm : 3 ≤ max_length) :
    ((tok.tokenize w = [] ∨ max_length - 2 < (tok.tokenize w).length) →
      wordSubwords tok (max_length - 2) w = [_UNK_TOKEN]) ∧
    1 ≤ (wordSubwords tok (max_length - 2) w).length ∧
    (wordSubwords tok (max_length - 2) w).length ≤ max_length - 2 := by
  by_cases hcase : tok.tokenize w = [] ∨ max_length - 2 < (tok.tokenize w).length
  · have hcond : ((tok.tokenize w).isEmpty
        || decide ((tok.tokenize w).length > max_length - 2)) = true := by
      rcases hcase with h | h
      · simp [h]
      · simp only [Bool.or_eq_true, decide_eq_true_eq]
        right
        exact h
    have hunk : wordSubwords tok (max_length - 2) w = [_UNK_TOKEN] := by
      simp only [wordSubwords]
      split
      · rfl
      · rename_i hcontra
        exfalso
        apply hcontra
        rw [hcond, decide_eq_true hw]
        rfl
    rw [hunk]
    exact ⟨fun _ => rfl, by simp, by simp [_UNK_TOKEN]; omega⟩
  · push_neg at hcase
    obtain ⟨hne, hlen⟩ := hcase
    have hkeep : wordSubwords tok (max_length - 2) w = tok.tokenize w := by
      simp only [wordSubwords]
      split
      · rename_i hcontra
        exfalso
        obtain ⟨hA, _⟩ := Bool.and_eq_true_iff.mp hcontra
        have hA' : (tok.tokenize w).isEmpty = true ∨
            decide ((tok.tokenize w).length > max_length - 2) = true := by
          simpa using hA
        rcases hA' with h | h
        · exact hne (List.isEmpty_iff.mp h)
        · have := of_decide_eq_true h
          omega
      · rfl
    rw [hkeep]
    refine ⟨fun hc => ?_, ?_, hlen⟩
    · rcases hc with h | h
      · exact absurd h hne
      · omega
    · have := List.length_pos.mpr hne
      omega

/-- `word_subwords_spec` at a concrete instance: a 3-piece tokenization with
capacity 2 is replaced by the unknown token. -/
theorem word_subwords_spec_witness :
    (("ab" : String) ≠ "") ∧ ((3 : Nat) ≤ 4) ∧
    (((Tokenizer.tokenize ⟨fun _ => ["x", "y", "z"], fun _ => 0⟩ "ab" = [] ∨
        4 - 2 < (Tokenizer.tokenize ⟨fun _ => ["x", "y", "z"], fun _ => 0⟩ "ab").length) →
      wordSubwords ⟨fun _ => ["x", "y", "z"], fun _ => 0⟩ (4 - 2) "ab" = [_UNK_TOKEN]) ∧
    1 ≤ (wordSubwords ⟨fun _ => ["x", "y", "z"], fun _ => 0⟩ (4 - 2) "ab").length ∧
    (wordSubwords ⟨fun _ => ["x", "y", "z"], fun _ => 0⟩ (4 - 2) "ab").length ≤ 4 - 2) :=
  ⟨by decide, by decide,
   word_subwords_spec ⟨fun _ => ["x", "y", "z"], fun _ => 0⟩ 4 "ab" (by decide) (by decide)⟩

/-- C8 counterexample to the claim as stated: an empty-string word whose
tokenization yields zero pieces is NOT replaced by `[UNK]` (the `and word`
guard fails), so the word contributes no subword at all and is dropped. -/
theorem word_subwords_empty_word_dropped :
    Tokenizer.tokenize ⟨fun _ => [], fun _ => 0⟩ "" = [] ∧
    wordSubwords ⟨fun _ => [], fun _ => 0⟩ (5 - 2) "" = [] ∧
    ([] : List String) ≠ [_UNK_TOKEN] := by
  refine ⟨rfl, rfl, by decide⟩

/-! ## The negative-label guard of `_tokenize_example` -/

/-- Unconditional unfolding equation for the `cons` case of
`tokenizeLoop`. -/
theorem tokenizeLoop_cons (tok : Tokenizer) (pre : Option (String → String))
    (cap : Nat) (use_neg_labels : Bool) (label_ids : List Int) (sid : Int)
    (word : String) (rest : List String) (i : Nat) (acc : List InputExample)
    (cur : InputExample) :
    tokenizeLoop tok pre cap use_neg_labels label_ids sid (word :: rest) i acc cur =
      if !use_neg_labels && label_ids.any (fun x => x < 0) then
        .error "Unexpected negative label_id"
      else
        let word := applyPre pre word
        let subwords := wordSubwords tok cap word
        let ac :=
          if subwords.length + cur.words.length > cap then
            ((if emitGuard cur then acc ++ [cur] else acc),
             (⟨sid, [], [], []⟩ : InputExample))
          else (acc, cur)
        match subwords with
        | [] => tokenizeLoop tok pre cap use_neg_labels label_ids sid rest (i + 1) ac.1 ac.2
        | s0 :: srest =>
          match label_ids[i]? with
          | none => .error "IndexError: list index out of range"
          | some label =>
            tokenizeLoop tok pre cap use_neg_labels label_ids sid rest (i + 1) ac.1
              (srest.foldl
                (fun c s => c.add_word_and_label_id s _PADDING_LABEL_ID false)
                (ac.2.add_word_and_label_id s0 label (label ≠ _PADDING_LABEL_ID))) := by
  rw [tokenizeLoop.eq_def]

theorem tokenizeLoop_ok (tok : Tokenizer) (pre : Option (String → String))
    (cap : Nat) (use_neg_labels : Bool) (label_ids : List Int) (sid : Int)
    (hguard : (!use_neg_labels && label_ids.any (fun x => x < 0)) = false) :
    ∀ (ws : List String) (i : Nat) (acc : List InputExample) (cur : InputExample),
      i + ws.length ≤ label_ids.length →
      ∃ res, tokenizeLoop tok pre cap use_neg_labels label_ids sid ws i acc cur =
        .ok res := by
  intro ws
  induction ws with
  | nil =>
    intro i acc cur _
    rw [tokenizeLoop]
    split
    · exact ⟨_, rfl⟩
    · exact ⟨_, rfl⟩
  | cons w rest ih =>
    intro i acc cur hlen
    rw [tokenizeLoop_cons, if_neg (by rw [hguard]; simp)]
    simp only []
    cases hsub : wordSubwords tok cap (applyPre pre w) with
    | nil =>
      exact ih (i + 1) _ _ (by simp at hlen; omega)
    | cons s0 srest =>
      cases hget : label_ids[i]? with
      | none =>
        exfalso
        have := List.getElem?_eq_none_iff.mp hget
        simp at hlen
        omega
      | some label =>
        exact ih (i + 1) _ _ (by simp at hlen; omega)

/-- C7 (amended): with `len(words) ≤ len(label_ids)` (the data-model
invariant), `_tokenize_example` raises `ValueError` iff `use_neg_labels` is
false, the example has at least one word, and SOME label id is negative —
including the reserved padding marker `-1`, which the source's
`any(x < 0)` test does not exempt; with `use_neg_labels` true no error is
raised. -/
theorem tokenize_example_error_iff (ex : InputExample) (max_length : Nat)
    (tok : Tokenizer) (pre : Option (String → String)) (use_neg_labels : Bool)
    (hlen : ex.words.length ≤ ex.label_ids.length) :
    (∃ msg, _tokenize_example ex max_length tok pre use_neg_labels = .error msg) ↔
      (use_neg_labels = false ∧ ex.words ≠ [] ∧ ∃ l ∈ ex.label_ids, l < 0) := by
  unfold _tokenize_example
  cases hw : ex.words with
  | nil =>
    rw [tokenizeLoop]
    constructor
    · rintro ⟨msg, herr⟩
      split at herr <;> exact Except.noConfusion herr
    · rintro ⟨_, habs, _⟩
      exact absurd rfl habs
  | cons w ws =>
    cases hguard : (!use_neg_labels && ex.label_ids.any (fun x => x < 0)) with
    | true =>
      obtain ⟨hneg, hany⟩ := Bool.and_eq_true_iff.mp hguard
      constructor
      · intro _
        refine ⟨by simpa using hneg, by simp, ?_⟩
        obtain ⟨l, hl, hldec⟩ := List.any_eq_true.mp hany
        exact ⟨l, hl, by simpa using hldec⟩
      · intro _
        refine ⟨"Unexpected negative label_id", ?_⟩
        rw [tokenizeLoop_cons, if_pos hguard]
    | false =>
      obtain ⟨res, hres⟩ := tokenizeLoop_ok tok pre (max_length - 2) use_neg_labels
        ex.label_ids ex.sentence_id hguard (w :: ws) 0 [] ⟨ex.sentence_id, [], [], []⟩
        (by rw [← hw]; omega)
      constructor
      · rintro ⟨msg, herr⟩
        rw [hres] at herr
        exact Except.noConfusion herr
      · rintro ⟨hneg, _, l, hl, hlneg⟩
        exfalso
        have hcontra : (!use_neg_labels && ex.label_ids.any (fun x => x < 0)) = true := by
          rw [hneg]
          simp only [Bool.not_false, Bool.true_and]
          exact List.any_eq_true.mpr ⟨l, hl, by simpa using hlneg⟩
        rw [hcontra] at hguard
        exact Bool.noConfusion hguard

/-- `tokenize_example_error_iff` at a concrete instance: one word labeled
with the reserved `-1` and `use_neg_labels = false` — the error fires. -/
theorem tokenize_example_error_iff_witness :
    ((["a"] : List String).length ≤ ([-1] : List Int).length) ∧
    ((∃ msg, _tokenize_example ⟨0, ["a"], [-1], []⟩ 5 ⟨fun s => [s], fun _ => 0⟩
        none false = .error msg) ↔
      (false = false ∧ (["a"] : List String) ≠ [] ∧ ∃ l ∈ ([-1] : List Int), l < 0)) :=
  ⟨by decide,
   tokenize_example_error_iff ⟨0, ["a"], [-1], []⟩ 5 ⟨fun s => [s], fun _ => 0⟩
     none false (by decide)⟩

/-- C7 counterexample to the claim as stated: an example whose only label is
the reserved padding marker `-1`, with `use_neg_labels = false`, DOES raise
`ValueError` — `any(x < 0)` does not exempt `-1`. -/
theorem tokenize_example_padding_label_raises :
    _tokenize_example ⟨0, ["a"], [-1], []⟩ 5 ⟨fun s => [s], fun _ => 0⟩ none false =
      .error "Unexpected negative label_id" := by
  rfl

/-! ## Label coverage: every emitted example owns a real label -/

theorem emitGuard_real_label (e : InputExample) (h : emitGuard e = true) :
    ∃ l ∈ e.label_ids, l ≠ _PADDING_LABEL_ID := by
  unfold emitGuard at h
  obtain ⟨hcount, _⟩ := Bool.and_eq_true_iff.mp h
  by_contra hall
  push_neg at hall
  have hlen : e.label_ids.count _PADDING_LABEL_ID = e.label_ids.length :=
    List.count_eq_length.mpr (fun b hb => (hall b hb).symm)
  simp [hlen] at hcount

theorem closeOut_fst_inv (c : Prop) [Decidable c] (acc : List InputExample)
    (cur newcur : InputExample)
    (hacc : ∀ e ∈ acc, ∃ l ∈ e.label_ids, l ≠ _PADDING_LABEL_ID) :
    ∀ e ∈ (if c then ((if emitGuard cur = true then acc ++ [cur] else acc), newcur)
           else (acc, cur)).1,
      ∃ l ∈ e.label_ids, l ≠ _PADDING_LABEL_ID := by
  intro e he
  split at he
  · simp only [] at he
    split at he
    · rcases List.mem_append.mp he with h | h
      · exact hacc e h
      · rw [List.mem_singleton] at h
        subst h
        rename_i hemit
        exact emitGuard_real_label e hemit
    · exact hacc e he
  · exact hacc e he

theorem tokenizeLoop_emitted (tok : Tokenizer) (pre : Option (String → String))
    (cap : Nat) (use_neg_labels : Bool) (label_ids : List Int) (sid : Int) :
    ∀ (ws : List String) (i : Nat) (acc : List InputExample) (cur : InputExample),
      (∀ e ∈ acc, ∃ l ∈ e.label_ids, l ≠ _PADDING_LABEL_ID) →
      ∀ res, tokenizeLoop tok pre cap use_neg_labels label_ids sid ws i acc cur = .ok res →
        ∀ e ∈ res, ∃ l ∈ e.label_ids, l ≠ _PADDING_LABEL_ID := by
  intro ws
  induction ws with
  | nil =>
    intro i acc cur hacc res hres e he
    rw [tokenizeLoop] at hres
    split at hres
    · rename_i hcond
      obtain ⟨_, hemit⟩ := Bool.and_eq_true_iff.mp hcond
      cases hres
      rcases List.mem_append.mp he with h | h
      · exact hacc e h
      · rw [List.mem_singleton] at h
        subst h
        exact emitGuard_real_label e hemit
    · cases hres
      exact hacc e he
  | cons w rest ih =>
    intro i acc cur hacc res hres e he
    rw [tokenizeLoop_cons] at hres
    split at hres
    · exact Except.noConfusion hres
    · simp only [] at hres
      revert hres
      cases hsub : wordSubwords tok cap (applyPre pre w) with
      | nil =>
        intro hres
        exact ih (i + 1) _ _ (closeOut_fst_inv _ acc cur _ hacc) res hres e he
      | cons s0 srest =>
        cases hget : label_ids[i]? with
        | none => intro hres; exact Except.noConfusion hres
        | some label =>
          intro hres
          exact ih (i + 1) _ _ (closeOut_fst_inv _ acc cur _ hacc) res hres e he

/-- Every example produced by `_tokenize_example` has a real label. -/
theorem tokenize_example_real_label (ex : InputExample) (max_length : Nat)
    (tok : Tokenizer) (pre : Option (String → String)) (use_neg_labels : Bool)
    (outs : List InputExample)
    (h : _tokenize_example ex max_length tok pre use_neg_labels = .ok outs) :
    ∀ e ∈ outs, ∃ l ∈ e.label_ids, l ≠ _PADDING_LABEL_ID := by
  exact tokenizeLoop_emitted tok pre (max_length - 2) use_neg_labels ex.label_ids
    ex.sentence_id ex.words 0 [] ⟨ex.sentence_id, [], [], []⟩ (by simp) outs h

theorem subLabelLoop_inv (label : Int) :
    ∀ (subs : List String) (j : Nat) (labs : List Int) (ix : List Nat),
      (∀ v ∈ ix, ∃ x, labs[v]? = some x ∧ x ≠ _PADDING_LABEL_ID) →
      (∀ v ∈ (subLabelLoop label subs j labs ix).2,
        ∃ x, (subLabelLoop label subs j labs ix).1[v]? = some x ∧
          x ≠ _PADDING_LABEL_ID) := by
  intro subs
  induction subs with
  | nil => intro j labs ix hinv; exact hinv
  | cons s srest ih =>
    intro j labs ix hinv
    rw [subLabelLoop]
    have hold : ∀ (y : Int), ∀ v ∈ ix, ∃ x, (labs ++ [y])[v]? = some x ∧
        x ≠ _PADDING_LABEL_ID := by
      intro y v hv
      obtain ⟨x, hx, hxne⟩ := hinv v hv
      refine ⟨x, ?_, hxne⟩
      rw [getElem?_append_left_of_lt _ _ v (List.getElem?_eq_some.mp hx).1]
      exact hx
    by_cases hj : j = 0
    · rw [if_pos hj]
      by_cases hlab : label = _PADDING_LABEL_ID
      · rw [if_neg (by simp [hlab])]
        exact ih (j + 1) _ _ (hold label)
      · rw [if_pos hlab]
        apply ih
        intro v hv
        rcases List.mem_append.mp hv with h | h
        · exact hold label v h
        · rw [List.mem_singleton] at h
          subst h
          exact ⟨label, List.getElem?_concat_length labs label, hlab⟩
    · rw [if_neg hj, if_neg (by simp)]
      exact ih (j + 1) _ _ (hold _PADDING_LABEL_ID)

theorem expandDocAux_inv (tok : Tokenizer) :
    ∀ (pairs : List (String × Int)) (toks : List String) (labs : List Int)
      (ix : List Nat),
      (∀ v ∈ ix, ∃ x, labs[v]? = some x ∧ x ≠ _PADDING_LABEL_ID) →
      (∀ v ∈ (expandDocAux tok pairs toks labs ix).2.2,
        ∃ x, (expandDocAux tok pairs toks labs ix).2.1[v]? = some x ∧
          x ≠ _PADDING_LABEL_ID) := by
  intro pairs
  induction pairs with
  | nil => intro toks labs ix hinv; exact hinv
  | cons p rest ih =>
    intro toks labs ix hinv
    obtain ⟨w, lab⟩ := p
    rw [expandDocAux]
    simp only []
    apply ih
    exact subLabelLoop_inv lab _ 0 labs ix hinv

/-- Every labeled position collected by `expandDoc` indexes a real label in
the flattened label sequence. -/
theorem expandDoc_label_ix (tok : Tokenizer) (words : List String)
    (label_ids : List Int) :
    ∀ v ∈ (expandDoc tok words label_ids).2.2,
      ∃ x, (expandDoc tok words label_ids).2.1[v]? = some x ∧
        x ≠ _PADDING_LABEL_ID := by
  exact expandDocAux_inv tok (words.zip label_ids) [] [] [] (by simp)

theorem optimalAux_mem (spans : List DocSpan) (ix : List Nat) :
    ∀ (l : List DocSpan) (i : Nat) (sp : DocSpan), sp ∈ optimalAux spans ix l i →
      ∃ (j : Nat) (sp0 : DocSpan), hasMaxContext spans j sp0 ix = true ∧
        sp = markSpan spans j sp0 ix := by
  intro l
  induction l with
  | nil => intro i sp hsp; simp [optimalAux] at hsp
  | cons x rest ih =>
    intro i sp hsp
    rw [optimalAux] at hsp
    rcases List.mem_append.mp hsp with h | h
    · split at h
      · rename_i hhas
        rw [List.mem_singleton] at h
        exact ⟨i, x, hhas, h⟩
      · simp at h
    · exact ih (i + 1) sp h

/-- Every example emitted by the windowing path owns a real (non-padding)
label: retained optimal spans have a max-context position, whose label the
emitted slice contains. -/
theorem convert_outputs_real_label (ex : InputExample) (tok : Tokenizer)
    (max_seq_length doc_stride : Nat) (outs : List InputExample)
    (hconv : convert_examples_to_features ex tok max_seq_length doc_stride =
      some outs) :
    ∀ e ∈ outs, ∃ l ∈ e.label_ids, l ≠ _PADDING_LABEL_ID := by
  intro e he
  unfold convert_examples_to_features at hconv
  simp only [] at hconv
  revert hconv
  cases hsl : spanLoopFuel (expandDoc tok ex.words ex.label_ids).1.length
      (max_seq_length - 2) doc_stride
      (expandDoc tok ex.words ex.label_ids).1.length 0 with
  | none => intro hconv; exact Option.noConfusion hconv
  | some pairs =>
    intro hconv
    have houts := Option.some_inj.mp hconv
    rw [← houts] at he
    obtain ⟨sp, hspmem, hspe⟩ := List.mem_map.mp he
    obtain ⟨j, sp0, hhas, hspeq⟩ := optimalAux_mem _ _ _ 0 sp hspmem
    obtain ⟨v, hvix, hvprop⟩ := List.any_eq_true.mp hhas
    obtain ⟨⟨hvge, hvlt⟩, _⟩ : ((sp0.start ≤ v ∧ v < sp0.start + sp0.length) ∧ True) := by
      simp only [Bool.and_eq_true, decide_eq_true_eq] at hvprop
      exact ⟨⟨hvprop.1.1, hvprop.1.2⟩, trivial⟩
    obtain ⟨x, hx, hxne⟩ := expandDoc_label_ix tok ex.words ex.label_ids v hvix
    refine ⟨x, ?_, hxne⟩
    have hstart : sp.start = sp0.start := by rw [hspeq]; rfl
    have hlength : sp.length = sp0.length := by rw [hspeq]; rfl
    have hle : e.label_ids =
        ((expandDoc tok ex.words ex.label_ids).2.1.drop sp.start).take sp.length := by
      rw [← hspe]
    have hgoal : e.label_ids[v - sp0.start]? = some x := by
      rw [hle, hstart, hlength, List.getElem?_take, List.getElem?_drop]
      rw [if_pos (by omega), show sp0.start + (v - sp0.start) = v by omega]
      exact hx
    exact List.getElem?_mem hgoal

/-- Every example produced by `perform_convert_to_features` (either path of
the batch driver) owns a real label. -/
theorem performConvert_real_label (ex : InputExample) (tok : Tokenizer)
    (max_seq_length : Nat) (pre : Option (String → String))
    (doc_stride : Option Nat) (outs : List InputExample)
    (h : performConvert ex tok max_seq_length pre doc_stride = .ok outs) :
    ∀ e ∈ outs, ∃ l ∈ e.label_ids, l ≠ _PADDING_LABEL_ID := by
  unfold performConvert at h
  split at h
  · revert h
    cases hc : convert_examples_to_features ex tok max_seq_length
        (doc_stride.getD 0) with
    | none => intro h; exact Except.noConfusion h
    | some outs' =>
      intro h
      have : outs' = outs := by
        simpa using h
      rw [this] at hc
      exact convert_outputs_real_label ex tok max_seq_length (doc_stride.getD 0) outs hc
  · exact tokenize_example_real_label ex max_seq_length tok pre true outs h

theorem convertSeq_real_label (tok : Tokenizer) (max_seq_length : Nat)
    (pre : Option (String → String)) (doc_stride : Option Nat) :
    ∀ (exs : List InputExample) (outs : List InputExample),
      convertSeq tok max_seq_length pre doc_stride exs = .ok outs →
      ∀ e ∈ outs, ∃ l ∈ e.label_ids, l ≠ _PADDING_LABEL_ID := by
  intro exs
  induction exs with
  | nil =>
    intro outs houts e he
    rw [convertSeq] at houts
    have : ([] : List InputExample) = outs := by simpa using houts
    rw [← this] at he
    simp at he
  | cons x rest ih =>
    intro outs houts e he
    rw [convertSeq] at houts
    revert houts
    cases hx : performConvert x tok max_seq_length pre doc_stride with
    | error msg => intro houts; exact Except.noConfusion houts
    | ok a =>
      cases hrest : convertSeq tok max_seq_length pre doc_stride rest with
      | error msg => intro houts; exact Except.noConfusion houts
      | ok b =>
        intro houts
        simp only [bind, Except.bind] at houts
        have hab : a ++ b = outs := Option.some_inj.mp (congrArg Except.toOption houts)
        rw [← hab] at he
        rcases List.mem_append.mp he with h | h
        · exact performConvert_real_label x tok max_seq_length pre doc_stride a hx e h
        · exact ih b hrest e h

/-- C5: every `InputExample` handed to the feature assembler — the outputs
of `_tokenize_example`, of the windowing path
`convert_examples_to_features`, and the full per-example stream assembled by
`write_example_to_file` — contains at least one position whose label is not
the padding marker `-1`; zero-label examples and spans are filtered at each
stage. -/
theorem emitted_examples_have_real_label :
    (∀ (ex : InputExample) (max_length : Nat) (tok : Tokenizer)
        (pre : Option (String → String)) (use_neg_labels : Bool)
        (outs : List InputExample),
      _tokenize_example ex max_length tok pre use_neg_labels = .ok outs →
      ∀ e ∈ outs, ∃ l ∈ e.label_ids, l ≠ _PADDING_LABEL_ID) ∧
    (∀ (ex : InputExample) (tok : Tokenizer) (max_seq_length doc_stride : Nat)
        (outs : List InputExample),
      convert_examples_to_features ex tok max_seq_length doc_stride = some outs →
      ∀ e ∈ outs, ∃ l ∈ e.label_ids, l ≠ _PADDING_LABEL_ID) ∧
    (∀ (examples : List InputExample) (tok : Tokenizer) (max_seq_length : Nat)
        (pre : Option (String → String)) (doc_stride : Option Nat)
        (assembled : List InputExample),
      assembledExamples examples tok max_seq_length pre doc_stride = .ok assembled →
      ∀ e ∈ assembled, ∃ l ∈ e.label_ids, l ≠ _PADDING_LABEL_ID) :=
  ⟨fun ex m tok pre un outs h => tokenize_example_real_label ex m tok pre un outs h,
   fun ex tok msl ds outs h => convert_outputs_real_label ex tok msl ds outs h,
   fun examples tok msl pre ds assembled h =>
     convertSeq_real_label tok msl pre ds (sortedExamples examples) assembled h⟩

/-- `emitted_examples_have_real_label` at a concrete driver run. -/
theorem emitted_examples_have_real_label_witness :
    (assembledExamples [⟨0, ["a"], [3], []⟩] ⟨fun s => [s], fun _ => 7⟩ 4 none none =
      .ok [⟨0, ["a"], [3], [true]⟩]) ∧
    (∀ e ∈ ([⟨0, ["a"], [3], [true]⟩] : List InputExample),
      ∃ l ∈ e.label_ids, l ≠ _PADDING_LABEL_ID) :=
  ⟨rfl,
   emitted_examples_have_real_label.2.2 [⟨0, ["a"], [3], []⟩]
     ⟨fun s => [s], fun _ => 7⟩ 4 none none [⟨0, ["a"], [3], [true]⟩] rfl⟩

/-! ## The driver's sort is a performance hint only -/

theorem exceptPerm_trans {α : Type} {x y z : Except String (List α)}
    (h1 : exceptPerm x y) (h2 : exceptPerm y z) : exceptPerm x z := by
  cases x <;> cases y <;> cases z <;> simp_all [exceptPerm]
  exact h1.trans h2

theorem exceptPerm_map {α β : Type} (f : α → β) {x y : Except String (List α)}
    (h : exceptPerm x y) :
    exceptPerm (x.map (List.map f)) (y.map (List.map f)) := by
  cases x <;> cases y <;> simp_all [exceptPerm, Except.map]
  exact h.map f

theorem convertSeq_cons (tok : Tokenizer) (max_seq_length : Nat)
    (pre : Option (String → String)) (doc_stride : Option Nat)
    (x : InputExample) (rest : List InputExample) :
    convertSeq tok max_seq_length pre doc_stride (x :: rest) =
      match performConvert x tok max_seq_length pre doc_stride with
      | .error msg => .error msg
      | .ok a =>
        match convertSeq tok max_seq_length pre doc_stride rest with
        | .error msg => .error msg
        | .ok b => .ok (a ++ b) := by
  rw [convertSeq]
  cases performConvert x tok max_seq_length pre doc_stride with
  | error msg => rfl
  | ok a =>
    cases convertSeq tok max_seq_length pre doc_stride rest with
    | error msg => rfl
    | ok b => rfl

theorem exceptPerm_appendOk {α : Type} (a : List α)
    {s t : Except String (List α)} (h : exceptPerm s t) :
    exceptPerm (appendOk a s) (appendOk a t) := by
  cases s with
  | error m =>
    cases t with
    | error m' => exact trivial
    | ok b => exact (h : False).elim
  | ok b =>
    cases t with
    | error m' => exact (h : False).elim
    | ok b' =>
      show (a ++ b).Perm (a ++ b')
      exact List.Perm.append_left a h

theorem convertSeq_cons_error {tok : Tokenizer} {max_seq_length : Nat}
    {pre : Option (String → String)} {doc_stride : Option Nat}
    {x : InputExample} {rest : List InputExample} {msg : String}
    (hx : performConvert x tok max_seq_length pre doc_stride = .error msg) :
    convertSeq tok max_seq_length pre doc_stride (x :: rest) = .error msg := by
  rw [convertSeq_cons, hx]

theorem convertSeq_cons_ok {tok : Tokenizer} {max_seq_length : Nat}
    {pre : Option (String → String)} {doc_stride : Option Nat}
    {x : InputExample} {rest : List InputExample} {a : List InputExample}
    (hx : performConvert x tok max_seq_length pre doc_stride = .ok a) :
    convertSeq tok max_seq_length pre doc_stride (x :: rest) =
      appendOk a (convertSeq tok max_seq_length pre doc_stride rest) := by
  rw [convertSeq_cons, hx]
  cases convertSeq tok max_seq_length pre doc_stride rest with
  | error m => rfl
  | ok b => rfl

theorem convertSeq_perm (tok : Tokenizer) (max_seq_length : Nat)
    (pre : Option (String → String)) (doc_stride : Option Nat) :
    ∀ {l l' : List InputExample}, l.Perm l' →
      exceptPerm (convertSeq tok max_seq_length pre doc_stride l)
        (convertSeq tok max_seq_length pre doc_stride l') := by
  intro l l' h
  induction h with
  | nil => simp [convertSeq, exceptPerm]
  | cons x h ih =>
    cases hx : performConvert x tok max_seq_length pre doc_stride with
    | error msg =>
      rw [convertSeq_cons_error hx, convertSeq_cons_error hx]
      exact trivial
    | ok a =>
      rw [convertSeq_cons_ok hx, convertSeq_cons_ok hx]
      exact exceptPerm_appendOk a ih
  | swap x y l =>
    cases hx : performConvert x tok max_seq_length pre doc_stride with
    | error mx =>
      cases hy : performConvert y tok max_seq_length pre doc_stride with
      | error my =>
        rw [convertSeq_cons_error hy, convertSeq_cons_error hx]
        exact trivial
      | ok ay =>
        rw [convertSeq_cons_ok hy, convertSeq_cons_error hx, convertSeq_cons_error hx]
        exact trivial
    | ok ax =>
      cases hy : performConvert y tok max_seq_length pre doc_stride with
      | error my =>
        rw [convertSeq_cons_error hy, convertSeq_cons_ok hx, convertSeq_cons_error hy]
        exact trivial
      | ok ay =>
        rw [convertSeq_cons_ok hy, convertSeq_cons_ok hx, convertSeq_cons_ok hx,
          convertSeq_cons_ok hy]
        cases convertSeq tok max_seq_length pre doc_stride l with
        | error m => exact trivial
        | ok b =>
          show (ay ++ (ax ++ b)).Perm (ax ++ (ay ++ b))
          exact List.perm_append_comm_assoc ay ax b
  | trans h1 h2 ih1 ih2 => exact exceptPerm_trans ih1 ih2

/-- C10: the stable ascending sort by real-label count changes only the
enumeration order of the emitted feature records: the record stream produced
by `write_example_to_file` is a permutation of (has the same multiset as)
the one obtained by converting the label-filtered examples in their original
order, and the returned count is the same. -/
theorem sort_is_enumeration_hint_only (examples : List InputExample)
    (tok : Tokenizer) (max_seq_length : Nat) (pre : Option (String → String))
    (doc_stride : Option Nat) :
    exceptPerm
      ((assembledExamples examples tok max_seq_length pre doc_stride).map
        (List.map (fun e => _convert_single_example e max_seq_length tok)))
      ((convertSeq tok max_seq_length pre doc_stride
          (filteredExamples examples)).map
        (List.map (fun e => _convert_single_example e max_seq_length tok))) ∧
    (∀ (recs : List FeatureRecord) (n : Nat),
      write_example_to_file examples tok max_seq_length pre doc_stride =
        .ok (recs, n) →
      ∃ recs', (convertSeq tok max_seq_length pre doc_stride
            (filteredExamples examples)).map
          (List.map (fun e => _convert_single_example e max_seq_length tok)) =
            .ok recs' ∧ recs.Perm recs' ∧ n = recs'.length) := by
  have hperm : (sortedExamples examples).Perm (filteredExamples examples) :=
    List.perm_insertionSort _ _
  have hmain := exceptPerm_map (fun e => _convert_single_example e max_seq_length tok)
    (convertSeq_perm tok max_seq_length pre doc_stride hperm)
  have hmain' : exceptPerm
      ((assembledExamples examples tok max_seq_length pre doc_stride).map
        (List.map (fun e => _convert_single_example e max_seq_length tok)))
      ((convertSeq tok max_seq_length pre doc_stride
          (filteredExamples examples)).map
        (List.map (fun e => _convert_single_example e max_seq_length tok))) := hmain
  refine ⟨hmain', ?_⟩
  intro recs n hw
  unfold write_example_to_file assembledExamples at hw
  cases hc : convertSeq tok max_seq_length pre doc_stride (sortedExamples examples) with
  | error msg =>
    rw [hc] at hw
    exact Except.noConfusion hw
  | ok l =>
    rw [hc] at hw
    simp only [Except.map] at hw
    have hpair := Option.some_inj.mp (congrArg Except.toOption hw)
    have hrecs : l.map (fun e => _convert_single_example e max_seq_length tok) = recs :=
      congrArg Prod.fst hpair
    have hn : (l.map (fun e => _convert_single_example e max_seq_length tok)).length
        = n := congrArg Prod.snd hpair
    have hmain2 : exceptPerm
        ((Except.ok l).map
          (List.map (fun e => _convert_single_example e max_seq_length tok)))
        ((convertSeq tok max_seq_length pre doc_stride
            (filteredExamples examples)).map
          (List.map (fun e => _convert_single_example e max_seq_length tok))) := by
      have h0 := hmain'
      unfold assembledExamples at h0
      rw [hc] at h0
      exact h0
    cases hc' : convertSeq tok max_seq_length pre doc_stride
        (filteredExamples examples) with
    | error msg =>
      rw [hc'] at hmain2
      exact absurd hmain2 (by simp [exceptPerm, Except.map])
    | ok l2 =>
      rw [hc'] at hmain2
      simp only [Except.map] at hmain2
      have hp : (l.map (fun e => _convert_single_example e max_seq_length tok)).Perm
          (l2.map (fun e => _convert_single_example e max_seq_length tok)) := hmain2
      refine ⟨l2.map (fun e => _convert_single_example e max_seq_length tok),
        rfl, hrecs ▸ hp, ?_⟩
      rw [← hn]
      exact hp.length_eq

/-- `sort_is_enumeration_hint_only` at a concrete instance. -/
theorem sort_is_enumeration_hint_only_witness :
    (write_example_to_file [⟨0, ["a"], [3], []⟩] ⟨fun s => [s], fun _ => 7⟩ 4
      none none = .ok ([⟨[7, 7, 7, 0], [1, 1, 1, 0], [0, 0, 0, 0],
        [-1, 3, -1, -1], 0, [false, true, false, false]⟩], 1)) ∧
    (∃ recs', (convertSeq ⟨fun s => [s], fun _ => 7⟩ 4 none none
        (filteredExamples [⟨0, ["a"], [3], []⟩])).map
      (List.map (fun e => _convert_single_example e 4 ⟨fun s => [s], fun _ => 7⟩)) =
        .ok recs' ∧
      List.Perm [(⟨[7, 7, 7, 0], [1, 1, 1, 0], [0, 0, 0, 0],
        [-1, 3, -1, -1], 0, [false, true, false, false]⟩ : FeatureRecord)] recs' ∧
      1 = recs'.length) :=
  ⟨rfl,
   (sort_is_enumeration_hint_only [⟨0, ["a"], [3], []⟩] ⟨fun s => [s], fun _ => 7⟩ 4
     none none).2 [⟨[7, 7, 7, 0], [1, 1, 1, 0], [0, 0, 0, 0],
       [-1, 3, -1, -1], 0, [false, true, false, false]⟩] 1 rfl⟩

/-! ## `generate_tf_record_from_data_file` and `doc_stride` -/

/-- C6 (amended): `common_kwargs` captures the caller's `doc_stride` BEFORE
the `doc_stride = None` rebind, which is therefore dead code:
`generate_tf_record_from_data_file` behaves exactly like writing the three
example sets with the caller's ORIGINAL `doc_stride` — the truncation-only
path is NOT forced, and the output is not `doc_stride`-independent. -/
theorem generate_uses_original_doc_stride (train_examples eval_examples
    test_examples : List InputExample) (labels : List String)
    (processor_type : String) (tok : Tokenizer) (max_seq_length : Nat)
    (text_preprocessing : Option (String → String)) (doc_stride : Option Nat) :
    generate_tf_record_from_data_file train_examples eval_examples test_examples
      labels processor_type tok max_seq_length text_preprocessing doc_stride =
    generateWithOriginalStride train_examples eval_examples test_examples
      labels processor_type tok max_seq_length text_preprocessing doc_stride := rfl

/-- C6 counterexample to the claim as stated: with a 3-word training example,
`max_seq_length = 4` and an identity tokenizer, the records produced with
`doc_stride = 1` (windowing path, overlapping spans) differ from those
produced with `doc_stride = None` (truncation path). -/
theorem generate_depends_on_doc_stride :
    (generate_tf_record_from_data_file [⟨0, ["a", "b", "c"], [1, 1, 1], []⟩] [] []
      [] "" ⟨fun s => [s], fun _ => 7⟩ 4 none (some 1)).toOption ≠
    (generate_tf_record_from_data_file [⟨0, ["a", "b", "c"], [1, 1, 1], []⟩] [] []
      [] "" ⟨fun s => [s], fun _ => 7⟩ 4 none none).toOption := by
  decide

end TaggingDataLib
